import Mathlib

/-!
A verification development for the `mbtilego` tile downloader.

The Go sources (`mbutil.go` and the second program embedded in the
repository) are shallowly embedded below:

* Go `float64` arithmetic is modelled over the real numbers `ℝ`
  (`math.Sin` is `Real.sin`, `math.Log` is `Real.log`, `math.Floor` and
  `math.Ceil` are `Int.floor` and `Int.ceil` cast back to `ℝ`);
* Go `int` values are modelled as unbounded integers `ℤ` (zoom levels,
  which index the precomputed per-zoom arrays, are modelled as `ℕ`);
* a Go `[]byte` is a `List ℕ`;
* the concurrent fetch/write pipeline of `main` is modelled as a
  nondeterministic small-step transition relation on pipeline states;
* `strings.Replace(s, old, new, -1)` (for a non-empty pattern `old`) is
  modelled by a fuelled left-to-right scan over `List Char`.
-/

namespace Mbtilego

/-! ## Constants (`mbutil.go` lines 19–23) -/

noncomputable def DEG_TO_RAD : ℝ := Real.pi / 180

def DEFAULT_TILE_SIZE : ℕ := 256

def MAX_ZOOM_LEVEL : ℕ := 17

/-! ## The `Tile` type and the store-facing row flip (`mbutil.go` lines 27–35) -/

structure Tile where
  z : ℕ
  x : ℤ
  y : ℤ
  Content : List ℕ
deriving DecidableEq, Repr

/-- `func (tile *Tile) flipped_y() int`: `int(2^z) - 1 - y`. -/
def flipped_y (t : Tile) : ℤ := 2 ^ t.z - 1 - t.y

/-- The `(zoom_level, tile_column, tile_row)` key inserted by `addToMBTile`. -/
def keyOf (t : Tile) : ℕ × ℤ × ℤ := (t.z, t.x, flipped_y t)

/-- The row inserted by `addToMBTile` (`mbutil.go` lines 110–116): key plus blob.
The second program embedded in the repository has the identical flipping
writer. -/
def addToMBTile (t : Tile) : (ℕ × ℤ × ℤ) × List ℕ := (keyOf t, t.Content)

/-- The row inserted by the `addToMBTile` of the FIRST embedded program
(`src/unnamed/part_000` lines 94–100): it inserts `tile.y` directly —
no flip is applied there. -/
def addToMBTile_v1 (t : Tile) : (ℕ × ℤ × ℤ) × List ℕ := ((t.z, t.x, t.y), t.Content)

/-! ## The projection constants (`NewProjection`, `mbutil.go` lines 44–61)

The constructor loop starts with `c = 256` and doubles `c` once per zoom
level, recording `Bc[i] = c/360`, `Cc[i] = c/(2*pi)`, `Zc[i] = (c/2, c/2)`
and `Ac[i] = c`.  `cSeq` is that doubling sequence. -/

def cSeq : ℕ → ℝ
  | 0 => 256
  | n + 1 => cSeq n * 2

noncomputable def Bc (z : ℕ) : ℝ := cSeq z / 360

noncomputable def Cc (z : ℕ) : ℝ := cSeq z / (2 * Real.pi)

/-- Both components of the Go pair `Zc[i]` are equal, so one real suffices. -/
noncomputable def Zc (z : ℕ) : ℝ := cSeq z / 2

noncomputable def Ac (z : ℕ) : ℝ := cSeq z

/-- `minMax(a, b, c)` (`mbutil.go` lines 288–291). -/
noncomputable def minMax (a b c : ℝ) : ℝ := min (max a b) c

/-- `Round` (`mbutil.go` lines 293–298): `Ceil(v - 0.5)` for negative `v`,
`Floor(v + 0.5)` otherwise. -/
noncomputable def Round (value : ℝ) : ℝ :=
  if value < 0 then ((⌈value - 0.5⌉ : ℤ) : ℝ) else ((⌊value + 0.5⌋ : ℤ) : ℝ)

/-- Go's `int(f)` conversion of a `float64`: truncation toward zero. -/
noncomputable def trunc (r : ℝ) : ℤ := if r < 0 then ⌈r⌉ else ⌊r⌋

/-- `project_pixels` (`mbutil.go` lines 63–69). -/
noncomputable def project_pixels (x y : ℝ) (zoom : ℕ) : ℝ × ℝ :=
  let d := Zc zoom
  let e := Round (d + x * Bc zoom)
  let f := minMax (Real.sin (DEG_TO_RAD * y)) (-0.9999) 0.9999
  let g := Round (d + 0.5 * Real.log ((1 + f) / (1 - f)) * -(Cc zoom))
  (e, g)

/-! ## Tile enumeration (`TileList`, `mbutil.go` lines 71–97) -/

/-- The inclusive integer interval `[lo, hi]` traversed by a Go
`for v := lo; v <= hi; v++` loop (empty when `hi < lo`). -/
def intRange (lo hi : ℤ) : List ℤ :=
  (List.range (hi + 1 - lo).toNat).map fun i : ℕ => lo + (i : ℤ)

/-- The two nested loops of `TileList` for one zoom level: `x` from
`xrangeStart` to `xrangeEnd`, `y` from `yrangeStart` to `yrangeEnd`, with
the `continue` guards dropping indices outside `[0, 2^zoom)`. -/
def tilesAtZoom (zoom : ℕ) (xs xe ys ye : ℤ) : List Tile :=
  (intRange xs xe).flatMap fun x =>
    if x < 0 ∨ (2 : ℤ) ^ zoom ≤ x then []
    else
      (intRange ys ye).flatMap fun y =>
        if y < 0 ∨ (2 : ℤ) ^ zoom ≤ y then []
        else [{ z := zoom, x := x, y := y, Content := [] }]

/-- `proj.levels`: the zoom levels `zoomlevel, …, max_zoomlevel`. -/
def levels (zoomlevel max_zoomlevel : ℕ) : List ℕ :=
  List.range' zoomlevel (max_zoomlevel + 1 - zoomlevel)

/-- `xrangeStart := int(px0[0] / DEFAULT_TILE_SIZE)` where
`px0 = project_pixels(xmin, ymax, zoom)` (the top-left corner). -/
noncomputable def xrangeStart (xmin ymax : ℝ) (zoom : ℕ) : ℤ :=
  trunc ((project_pixels xmin ymax zoom).1 / 256)

/-- `xrangeEnd := int(px1[0] / DEFAULT_TILE_SIZE)` where
`px1 = project_pixels(xmax, ymin, zoom)` (the bottom-right corner). -/
noncomputable def xrangeEnd (xmax ymin : ℝ) (zoom : ℕ) : ℤ :=
  trunc ((project_pixels xmax ymin zoom).1 / 256)

/-- `yrangeStart := int(px0[1] / DEFAULT_TILE_SIZE)`. -/
noncomputable def yrangeStart (xmin ymax : ℝ) (zoom : ℕ) : ℤ :=
  trunc ((project_pixels xmin ymax zoom).2 / 256)

/-- `yrangeEnd := int(px1[1] / DEFAULT_TILE_SIZE)`. -/
noncomputable def yrangeEnd (xmax ymin : ℝ) (zoom : ℕ) : ℤ :=
  trunc ((project_pixels xmax ymin zoom).2 / 256)

/-- `TileList` (`mbutil.go` lines 71–97): for each zoom level in order,
enumerate the tile rectangle between the projected corners, clipped to
`[0, 2^zoom)`.  (Go recomputes `yrangeStart`/`yrangeEnd` inside the `x`
loop, but they do not depend on `x`.) -/
noncomputable def TileList (xmin ymin xmax ymax : ℝ) (zoomlevel max_zoomlevel : ℕ) :
    List Tile :=
  (levels zoomlevel max_zoomlevel).flatMap fun zoom =>
    tilesAtZoom zoom (xrangeStart xmin ymax zoom) (xrangeEnd xmax ymin zoom)
      (yrangeStart xmin ymax zoom) (yrangeEnd xmax ymin zoom)

/-- Strict lexicographic order on tiles: by zoom, then column, then row. -/
def tileLt (a b : Tile) : Prop :=
  a.z < b.z ∨ (a.z = b.z ∧ (a.x < b.x ∨ (a.x = b.x ∧ a.y < b.y)))

/-! ## The URL template substitution (`getTileUrl`, `mbutil.go` lines 142–148) -/

def lbrace : Char := Char.ofNat 123

def rbrace : Char := Char.ofNat 125

def xTok : List Char := [lbrace, 'x', rbrace]

def yTok : List Char := [lbrace, 'y', rbrace]

def zTok : List Char := [lbrace, 'z', rbrace]

/-- Decimal digit character, for `0 ≤ n ≤ 9`. -/
def digitChar (n : ℕ) : Char := Char.ofNat (48 + n)

/-- Accumulating decimal digit emitter (the recursion of `strconv.Itoa`),
with structural fuel so that it reduces definitionally. -/
def natDigitsCore : ℕ → ℕ → List Char → List Char
  | 0, _, acc => acc
  | fuel + 1, n, acc =>
    if n < 10 then digitChar n :: acc
    else natDigitsCore fuel (n / 10) (digitChar (n % 10) :: acc)

def natDigits (n : ℕ) : List Char := natDigitsCore (n + 1) n []

/-- `strconv.Itoa`: decimal representation of an integer. -/
def itoa (n : ℤ) : List Char :=
  if n < 0 then '-' :: natDigits n.natAbs else natDigits n.toNat

/-- Is `pat` a prefix of `s`? -/
def isPre : List Char → List Char → Bool
  | [], _ => true
  | _ :: _, [] => false
  | a :: pat, b :: s => a = b && isPre pat s

/-- One fuelled step of the left-to-right, leftmost, non-overlapping scan
performed by `strings.Replace(s, old, new, -1)` for non-empty `old`. -/
def replCore : ℕ → List Char → List Char → List Char → List Char
  | 0, s, _, _ => s
  | fuel + 1, s, old, nw =>
    match s with
    | [] => []
    | c :: rest =>
      if !old.isEmpty && isPre old (c :: rest) then
        nw ++ replCore fuel ((c :: rest).drop old.length) old nw
      else c :: replCore fuel rest old nw

/-- `strings.Replace(s, old, nw, -1)` for non-empty `old`. -/
def goReplace (s old nw : List Char) : List Char := replCore s.length s old nw

/-- Does `tok` occur as a contiguous substring of `s`? -/
def occursIn : List Char → List Char → Bool
  | tok, [] => tok.isEmpty
  | tok, c :: rest => isPre tok (c :: rest) || occursIn tok rest

/-- `getTileUrl` (`mbutil.go` lines 142–148): substitute the `x`, `y`, `z`
placeholders, in that order, each via `strings.Replace(·, ·, ·, -1)`. -/
def getTileUrl (z x y : ℤ) (url_format : List Char) : List Char :=
  goReplace (goReplace (goReplace url_format xTok (itoa x)) yTok (itoa y)) zTok (itoa z)

/-- The three placeholder tokens. -/
def TOKS : List (List Char) := [xTok, yTok, zTok]

/-- A string with no opening brace: no placeholder can start inside it. -/
def cleanSeg (seg : List Char) : Prop := ∀ c ∈ seg, c ≠ lbrace

instance cleanSegDecidable (seg : List Char) : Decidable (cleanSeg seg) :=
  List.decidableBAll _ seg

/-- A segment a substitution pass for `tok` scans through without
matching: either brace-free, or one of the placeholder tokens other than
`tok`. -/
def segOk (tok seg : List Char) : Prop := cleanSeg seg ∨ (seg ∈ TOKS ∧ seg ≠ tok)

/-- The token at template slot `i` for an arbitrary placeholder order. -/
def slotTok : ℕ → List Char
  | 0 => xTok
  | 1 => yTok
  | _ => zTok

/-- The substituted decimal value for the token at slot `i`. -/
def slotVal (z x y : ℤ) : ℕ → List Char
  | 0 => itoa x
  | 1 => itoa y
  | _ => itoa z

/-- The template of the spec's example, `".../{z}/{x}/{y}.png"`. -/
def exTemplate : List Char :=
  ['.', '.', '.', '/', lbrace, 'z', rbrace, '/', lbrace, 'x', rbrace, '/',
   lbrace, 'y', rbrace, '.', 'p', 'n', 'g']

/-- The resolved URL of the spec's example, `".../4/2/1.png"`. -/
def exResolved : List Char :=
  ['.', '.', '.', '/', '4', '/', '2', '/', '1', '.', 'p', 'n', 'g']

/-! ## The pipeline (`main`, `mbTileWorker`, `mbutil.go` lines 99–108, 259–283)

Twenty fetch workers race on `inputPipe`; a single writer consumes
`tilePipe`, inserts into the store and acknowledges on `outputPipe`; the
orchestrator receives `N` acknowledgments and only then finalizes
(`optimizeDatabase`), once.  The channels are modelled as multisets (the
relevant claims are insensitive to queue order), and the serialized store
as the multiset of inserted keys. -/

structure PState where
  pending : Multiset Tile
  fetched : Multiset Tile
  store : Multiset (ℕ × ℤ × ℤ)
  ackq : ℕ
  acks : ℕ
  fin : ℕ
deriving DecidableEq

/-- One transition of the pipeline.  `N` is the enumerated tile count;
finalize is enabled only after the orchestrator has received exactly `N`
acknowledgments, and only if it has not run yet (the orchestrator code is
straight-line: receive loop, then one `optimizeDatabase` call). -/
inductive PStep (N : ℕ) : PState → PState → Prop
  | fetch (t : Tile) (s s' : PState) (h : t ∈ s.pending)
      (hp : s'.pending = s.pending.erase t) (hf : s'.fetched = t ::ₘ s.fetched)
      (hs : s'.store = s.store) (hq : s'.ackq = s.ackq) (ha : s'.acks = s.acks)
      (hn : s'.fin = s.fin) : PStep N s s'
  | write (t : Tile) (s s' : PState) (h : t ∈ s.fetched)
      (hp : s'.pending = s.pending) (hf : s'.fetched = s.fetched.erase t)
      (hs : s'.store = keyOf t ::ₘ s.store) (hq : s'.ackq = s.ackq + 1)
      (ha : s'.acks = s.acks) (hn : s'.fin = s.fin) : PStep N s s'
  | ack (s s' : PState) (h : 0 < s.ackq)
      (hp : s'.pending = s.pending) (hf : s'.fetched = s.fetched)
      (hs : s'.store = s.store) (hq : s'.ackq = s.ackq - 1)
      (ha : s'.acks = s.acks + 1) (hn : s'.fin = s.fin) : PStep N s s'
  | finalize (s s' : PState) (hacks : s.acks = N) (hfin : s.fin = 0)
      (hp : s'.pending = s.pending) (hf : s'.fetched = s.fetched)
      (hs : s'.store = s.store) (hq : s'.ackq = s.ackq)
      (ha : s'.acks = s.acks) (hn : s'.fin = s.fin + 1) : PStep N s s'

/-- Initial pipeline state: all enumerated tiles submitted to the work
queue, nothing fetched, written, or acknowledged. -/
def pInit (tiles : List Tile) : PState :=
  { pending := (tiles : Multiset Tile), fetched := 0, store := 0,
    ackq := 0, acks := 0, fin := 0 }

/-- Reachability under pipeline steps. -/
def Reach (N : ℕ) : PState → PState → Prop := Relation.ReflTransGen (PStep N)

/-- The single tile enumerated for the degenerate bounding box at the
origin with zoom range `0..0`. -/
def t000 : Tile := { z := 0, x := 0, y := 0, Content := [] }

/-- A concrete pipeline execution over the one-tile list, state by state. -/
def ps0 : PState := pInit [t000]

def ps1 : PState :=
  { pending := 0, fetched := {t000}, store := 0, ackq := 0, acks := 0, fin := 0 }

def ps2 : PState :=
  { pending := 0, fetched := 0, store := {keyOf t000}, ackq := 1, acks := 0, fin := 0 }

def ps3 : PState :=
  { pending := 0, fetched := 0, store := {keyOf t000}, ackq := 0, acks := 1, fin := 0 }

def ps4 : PState :=
  { pending := 0, fetched := 0, store := {keyOf t000}, ackq := 0, acks := 1, fin := 1 }

/-- The pipeline invariant: some multiset `done` of tiles has passed the
writer; the work queue, fetch queue and `done` partition the enumerated
tiles; the store holds exactly the keys of `done`; pending plus received
acknowledgments count `done`; finalize has run at most once and only
after all acknowledgments were received. -/
def Inv (tiles : List Tile) (s : PState) : Prop :=
  ∃ done : Multiset Tile,
    s.pending + s.fetched + done = (tiles : Multiset Tile) ∧
    s.store = done.map keyOf ∧
    s.ackq + s.acks = Multiset.card done ∧
    s.fin ≤ 1 ∧ (s.fin = 1 → s.acks = tiles.length)

/-! ## Effect traces of the two `main` variants -/

inductive Action where
  | report
  | exit1
  | prepareDB
  | setupTables
  | insertTile (k : ℕ × ℤ × ℤ)
  | finalize
  | logDone
deriving DecidableEq, Repr

/-- The store-affecting effect trace of `main` in `mbutil.go` (lines
219–286): prepare the database, create the tables, run the pipeline
(serialized writes, here in enumeration order), finalize, log.  There is
no emptiness check on the tile list. -/
def mainTrace (tiles : List Tile) : List Action :=
  [Action.prepareDB, Action.setupTables] ++
    tiles.map (fun t => Action.insertTile (keyOf t)) ++
    [Action.finalize, Action.logDone]

/-- The effect trace of `main` in the second embedded program (the
variant with the `len(tiles) == 0` check before any store operation):
zero tiles are reported and the process exits with status 1. -/
def checkedMainTrace (tiles : List Tile) : List Action :=
  if tiles.length = 0 then [Action.report, Action.exit1]
  else
    [Action.prepareDB, Action.setupTables] ++
      tiles.map (fun t => Action.insertTile (keyOf t)) ++
      [Action.finalize, Action.logDone]

/-- The key recorded by an insert action, if any. -/
def actionKey : Action → Option (ℕ × ℤ × ℤ)
  | Action.insertTile k => some k
  | _ => none

/-- Extract the inserted keys from a trace. -/
def writesOf (trace : List Action) : List (ℕ × ℤ × ℤ) :=
  trace.filterMap actionKey

/-! ## `prepareDatabase` (`mbutil.go` lines 150–162) -/

inductive DbAct where
  | removeFile (filename : String)
  | openDb (filename : String)
  | pragma (stmt : String)
deriving DecidableEq, Repr

/-- The ordered effect list of `optimizeConnection`. -/
def optimizeConnectionActs : List DbAct :=
  [DbAct.pragma "synchronous=0", DbAct.pragma "locking_mode=EXCLUSIVE",
   DbAct.pragma "journal_mode=DELETE"]

/-- The ordered effect list of `prepareDatabase`: `os.Remove(filename)`
first (its error ignored), then `sql.Open`, then the connection pragmas. -/
def prepareDatabaseActs (filename : String) : List DbAct :=
  DbAct.removeFile filename :: DbAct.openDb filename :: optimizeConnectionActs

/-- A file system assigning to each path the bytes stored there, if any. -/
def FileSys : Type := String → Option (List ℕ)

/-- The content of a freshly opened, empty SQLite database file. -/
def emptyDb : List ℕ := []

/-- The file-system effect of `prepareDatabase filename`: whatever was at
`filename` is removed, and a fresh empty database is created there. -/
def runPrepare (fs : FileSys) (filename : String) : FileSys :=
  fun g => if g = filename then some emptyDb else fs g

/-- Point update of a file system, used to state frame conditions. -/
def fsUpdate (fs : FileSys) (filename : String) (content : Option (List ℕ)) : FileSys :=
  fun g => if g = filename then content else fs g

/-! ## Basic facts about the numeric helpers -/

lemma cSeq_eq (n : ℕ) : cSeq n = 256 * 2 ^ n := by
  induction n with
  | zero => simp [cSeq]
  | succ n ih => rw [cSeq, ih]; ring

lemma cSeq_pos (n : ℕ) : 0 < cSeq n := by
  rw [cSeq_eq]; positivity

lemma Bc_pos (z : ℕ) : 0 < Bc z := by
  unfold Bc; have := cSeq_pos z; positivity

lemma Cc_pos (z : ℕ) : 0 < Cc z := by
  unfold Cc; have := cSeq_pos z; have := Real.pi_pos; positivity

lemma Round_of_nonneg {v : ℝ} (h : ¬ v < 0) : Round v = ((⌊v + 0.5⌋ : ℤ) : ℝ) :=
  if_neg h

lemma Round_of_neg {v : ℝ} (h : v < 0) : Round v = ((⌈v - 0.5⌉ : ℤ) : ℝ) :=
  if_pos h

lemma Round_mono {a b : ℝ} (h : a ≤ b) : Round a ≤ Round b := by
  unfold Round
  split_ifs with h1 h2 h2
  · exact_mod_cast Int.ceil_le_ceil (by linarith)
  · have ha : (⌈a - 0.5⌉ : ℤ) ≤ 0 := Int.ceil_le.2 (by push_cast; norm_num; linarith)
    have hb : (0 : ℤ) ≤ ⌊b + 0.5⌋ := Int.le_floor.2 (by push_cast; norm_num; linarith)
    exact_mod_cast ha.trans hb
  · linarith
  · exact_mod_cast Int.floor_le_floor (by linarith)

lemma trunc_of_nonneg {r : ℝ} (h : ¬ r < 0) : trunc r = ⌊r⌋ := if_neg h

lemma trunc_of_neg {r : ℝ} (h : r < 0) : trunc r = ⌈r⌉ := if_pos h

lemma trunc_mono {a b : ℝ} (h : a ≤ b) : trunc a ≤ trunc b := by
  unfold trunc
  split_ifs with h1 h2 h2
  · exact Int.ceil_le_ceil h
  · have ha : ⌈a⌉ ≤ 0 := Int.ceil_le.2 (by push_cast; linarith)
    have hb : (0 : ℤ) ≤ ⌊b⌋ := Int.le_floor.2 (by push_cast; linarith)
    exact ha.trans hb
  · linarith
  · exact Int.floor_le_floor h

lemma trunc_nonpos {r : ℝ} (h : r ≤ 0) : trunc r ≤ 0 := by
  unfold trunc
  split_ifs with h1
  · exact Int.ceil_le.2 (by exact_mod_cast h)
  · have h0 : r = 0 := le_antisymm h (not_lt.1 h1)
    simp [h0]

lemma trunc_le_of_le {r : ℝ} {n : ℤ} (h : r ≤ n) (hn : n ≤ 0) : trunc r ≤ n := by
  unfold trunc
  split_ifs with h1
  · exact Int.ceil_le.2 h
  · exact Int.floor_le_floor h |>.trans (by simp)

lemma le_trunc_of_le {r : ℝ} {n : ℤ} (h : (n : ℝ) ≤ r) (hn : 0 ≤ n) : n ≤ trunc r := by
  have hr : ¬ r < 0 := not_lt.2 ((by exact_mod_cast hn : (0:ℝ) ≤ (n:ℝ)).trans h)
  rw [trunc_of_nonneg hr]
  exact Int.le_floor.2 h

/-! ## Basic facts about the enumeration building blocks -/

lemma mem_intRange {lo hi a : ℤ} : a ∈ intRange lo hi ↔ lo ≤ a ∧ a ≤ hi := by
  unfold intRange
  constructor
  · intro h
    obtain ⟨i, hi1, hi2⟩ := List.mem_map.1 h
    rw [List.mem_range] at hi1
    subst hi2
    omega
  · rintro ⟨h1, h2⟩
    exact List.mem_map.2 ⟨(a - lo).toNat, List.mem_range.2 (by omega), by omega⟩

lemma pairwise_intRange (lo hi : ℤ) : (intRange lo hi).Pairwise (· < ·) := by
  unfold intRange
  exact (List.pairwise_lt_range _).map _ (fun a b h => by omega)

lemma mem_levels {zf zt z : ℕ} : z ∈ levels zf zt ↔ zf ≤ z ∧ z ≤ zt := by
  unfold levels
  rw [List.mem_range'_1]
  omega

lemma pairwise_levels (zf zt : ℕ) : (levels zf zt).Pairwise (· < ·) :=
  List.pairwise_lt_range' zf _

lemma mem_tilesAtZoom {zoom : ℕ} {xs xe ys ye : ℤ} {t : Tile} :
    t ∈ tilesAtZoom zoom xs xe ys ye ↔
      t.z = zoom ∧ t.Content = [] ∧ xs ≤ t.x ∧ t.x ≤ xe ∧ ys ≤ t.y ∧ t.y ≤ ye ∧
        0 ≤ t.x ∧ t.x < 2 ^ zoom ∧ 0 ≤ t.y ∧ t.y < 2 ^ zoom := by
  obtain ⟨tz, tx, ty, tc⟩ := t
  unfold tilesAtZoom
  simp only [List.mem_flatMap, mem_intRange]
  constructor
  · rintro ⟨x, ⟨hx1, hx2⟩, hx⟩
    by_cases hg : x < 0 ∨ (2 : ℤ) ^ zoom ≤ x
    · simp [if_pos hg] at hx
    · rw [if_neg hg] at hx
      rw [List.mem_flatMap] at hx
      obtain ⟨y, hy', hy⟩ := hx
      rw [mem_intRange] at hy'
      by_cases hg2 : y < 0 ∨ (2 : ℤ) ^ zoom ≤ y
      · simp [if_pos hg2] at hy
      · rw [if_neg hg2, List.mem_singleton] at hy
        cases hy
        push_neg at hg hg2
        exact ⟨rfl, rfl, hx1, hx2, hy'.1, hy'.2, hg.1, hg.2, hg2.1, hg2.2⟩
  · rintro ⟨hz, hc, h1, h2, h3, h4, h5, h6, h7, h8⟩
    subst hz; subst hc
    refine ⟨tx, ⟨h1, h2⟩, ?_⟩
    rw [if_neg (by omega)]
    rw [List.mem_flatMap]
    refine ⟨ty, mem_intRange.2 ⟨h3, h4⟩, ?_⟩
    rw [if_neg (by omega)]
    exact List.mem_singleton.2 rfl

lemma mem_TileList {xmin ymin xmax ymax : ℝ} {zf zt : ℕ} {t : Tile} :
    t ∈ TileList xmin ymin xmax ymax zf zt ↔
      zf ≤ t.z ∧ t.z ≤ zt ∧ t.Content = [] ∧
      xrangeStart xmin ymax t.z ≤ t.x ∧ t.x ≤ xrangeEnd xmax ymin t.z ∧
      yrangeStart xmin ymax t.z ≤ t.y ∧ t.y ≤ yrangeEnd xmax ymin t.z ∧
      0 ≤ t.x ∧ t.x < 2 ^ t.z ∧ 0 ≤ t.y ∧ t.y < 2 ^ t.z := by
  unfold TileList
  rw [List.mem_flatMap]
  constructor
  · rintro ⟨zoom, hz, ht⟩
    rw [mem_tilesAtZoom] at ht
    obtain ⟨h0, hrest⟩ := ht
    rw [mem_levels] at hz
    subst h0
    exact ⟨hz.1, hz.2, hrest⟩
  · rintro ⟨h1, h2, hrest⟩
    exact ⟨t.z, mem_levels.2 ⟨h1, h2⟩, mem_tilesAtZoom.2 ⟨rfl, hrest⟩⟩

lemma mem_yLoop {zoom : ℕ} {x ys ye : ℤ} {t : Tile} :
    t ∈ ((intRange ys ye).flatMap fun y =>
        if y < 0 ∨ (2 : ℤ) ^ zoom ≤ y then []
        else [{ z := zoom, x := x, y := y, Content := [] }]) ↔
      t.z = zoom ∧ t.x = x ∧ t.Content = [] ∧ ys ≤ t.y ∧ t.y ≤ ye ∧
        0 ≤ t.y ∧ t.y < 2 ^ zoom := by
  obtain ⟨tz, tx, ty, tc⟩ := t
  rw [List.mem_flatMap]
  constructor
  · rintro ⟨y, hy', hy⟩
    rw [mem_intRange] at hy'
    by_cases hg : y < 0 ∨ (2 : ℤ) ^ zoom ≤ y
    · simp [if_pos hg] at hy
    · rw [if_neg hg, List.mem_singleton] at hy
      cases hy
      push_neg at hg
      exact ⟨rfl, rfl, rfl, hy'.1, hy'.2, hg.1, hg.2⟩
  · rintro ⟨h1, h2, h3, h4, h5, h6, h7⟩
    dsimp only at h1 h2 h3 h4 h5 h6 h7
    subst h1; subst h2; subst h3
    refine ⟨ty, mem_intRange.2 ⟨h4, h5⟩, ?_⟩
    rw [if_neg (by push_neg; exact ⟨h6, h7⟩)]
    exact List.mem_singleton.2 rfl

lemma pairwise_flatMap {α β : Type} {R : α → α → Prop} {S : β → β → Prop}
    {l : List α} {f : α → List β}
    (hl : l.Pairwise R)
    (hf : ∀ a ∈ l, (f a).Pairwise S)
    (hcross : ∀ a b, R a b → ∀ x ∈ f a, ∀ y ∈ f b, S x y) :
    (l.flatMap f).Pairwise S := by
  induction l with
  | nil => simp
  | cons a l ih =>
    rw [List.flatMap_cons, List.pairwise_append]
    rcases List.pairwise_cons.1 hl with ⟨haR, hl'⟩
    refine ⟨hf a (by simp), ih hl' (fun b hb => hf b (by simp [hb])), ?_⟩
    intro x hx y hy
    rw [List.mem_flatMap] at hy
    obtain ⟨b, hb, hyb⟩ := hy
    exact hcross a b (haR b hb) x hx y hyb

lemma tilesAtZoom_eq_flatMap (zoom : ℕ) (xs xe ys ye : ℤ) :
    tilesAtZoom zoom xs xe ys ye =
      (intRange xs xe).flatMap fun x =>
        if x < 0 ∨ (2 : ℤ) ^ zoom ≤ x then []
        else (intRange ys ye).flatMap fun y =>
          if y < 0 ∨ (2 : ℤ) ^ zoom ≤ y then []
          else [{ z := zoom, x := x, y := y, Content := [] }] := rfl

lemma pairwise_tilesAtZoom (zoom : ℕ) (xs xe ys ye : ℤ) :
    (tilesAtZoom zoom xs xe ys ye).Pairwise tileLt := by
  rw [tilesAtZoom_eq_flatMap]
  apply pairwise_flatMap (R := (· < ·)) (pairwise_intRange xs xe)
  · intro x hx
    by_cases hg : x < 0 ∨ (2 : ℤ) ^ zoom ≤ x
    · simp [if_pos hg]
    · rw [if_neg hg]
      apply pairwise_flatMap (R := (· < ·)) (pairwise_intRange ys ye)
      · intro y hy
        by_cases hg2 : y < 0 ∨ (2 : ℤ) ^ zoom ≤ y
        · simp [if_pos hg2]
        · rw [if_neg hg2]
          exact List.pairwise_singleton _ _
      · intro y y' hyy t1 ht1 t2 ht2
        by_cases hg1 : y < 0 ∨ (2 : ℤ) ^ zoom ≤ y
        · simp [if_pos hg1] at ht1
        · by_cases hg2 : y' < 0 ∨ (2 : ℤ) ^ zoom ≤ y'
          · simp [if_pos hg2] at ht2
          · rw [if_neg hg1, List.mem_singleton] at ht1
            rw [if_neg hg2, List.mem_singleton] at ht2
            subst ht1; subst ht2
            exact Or.inr ⟨rfl, Or.inr ⟨rfl, hyy⟩⟩
  · intro x x' hxx t1 ht1 t2 ht2
    by_cases hg1 : x < 0 ∨ (2 : ℤ) ^ zoom ≤ x
    · simp [if_pos hg1] at ht1
    · by_cases hg2 : x' < 0 ∨ (2 : ℤ) ^ zoom ≤ x'
      · simp [if_pos hg2] at ht2
      · rw [if_neg hg1] at ht1
        rw [if_neg hg2] at ht2
        rw [mem_yLoop] at ht1 ht2
        exact Or.inr ⟨ht1.1.trans ht2.1.symm,
          Or.inl (ht1.2.1.symm ▸ ht2.2.1.symm ▸ hxx)⟩

lemma pairwise_TileList (xmin ymin xmax ymax : ℝ) (zf zt : ℕ) :
    (TileList xmin ymin xmax ymax zf zt).Pairwise tileLt := by
  unfold TileList
  apply pairwise_flatMap (R := (· < ·)) (pairwise_levels zf zt)
  · intro z hz
    exact pairwise_tilesAtZoom _ _ _ _ _
  · intro z z' hzz t1 ht1 t2 ht2
    rw [mem_tilesAtZoom] at ht1 ht2
    exact Or.inl (ht1.1.symm ▸ ht2.1.symm ▸ hzz)

lemma tileLt_ne {a b : Tile} (h : tileLt a b) : a ≠ b := by
  rintro rfl
  rcases h with h | ⟨-, h | ⟨-, h⟩⟩ <;> exact lt_irrefl _ h

lemma nodup_TileList (xmin ymin xmax ymax : ℝ) (zf zt : ℕ) :
    (TileList xmin ymin xmax ymax zf zt).Nodup :=
  (pairwise_TileList xmin ymin xmax ymax zf zt).imp tileLt_ne

lemma keyOf_inj_on_TileList {xmin ymin xmax ymax : ℝ} {zf zt : ℕ} :
    ∀ a ∈ TileList xmin ymin xmax ymax zf zt,
      ∀ b ∈ TileList xmin ymin xmax ymax zf zt, keyOf a = keyOf b → a = b := by
  intro a ha b hb hk
  rw [mem_TileList] at ha hb
  unfold keyOf flipped_y at hk
  rw [Prod.mk.injEq, Prod.mk.injEq] at hk
  obtain ⟨hz, hx, hy⟩ := hk
  obtain ⟨az, ax, ay, ac⟩ := a
  obtain ⟨bz, bx, by', bc⟩ := b
  simp only at hz hx hy ⊢
  subst hz; subst hx
  have hyy : ay = by' := by
    have h2 : (2 : ℤ) ^ az - 1 - ay = 2 ^ az - 1 - by' := hy
    linarith
  subst hyy
  have hac : ac = [] := ha.2.2.1
  have hbc : bc = [] := hb.2.2.1
  subst hac; subst hbc
  rfl

/-! ## Claim theorems: rounding (C7) -/

/-- Claim C7 (corrected), counterexample: the claim's description of `Round`
as "negative input rounds toward negative infinity after subtracting 0.5"
is wrong: `Round` uses `Ceil` (toward positive infinity) on negatives and
`Floor` (toward negative infinity) on non-negatives, not the other way
around.  At `v = -2.3` the code returns `-2`, while the claimed
floor-description would give `-3`; at `v = 2.3` the code returns `2`,
while the claimed ceiling-description would give `3`. -/
theorem C7_counterexample :
    Round (-(23 / 10) : ℝ) = -2 ∧
    ((-2 : ℝ) ≠ ((⌊(-(23 / 10) : ℝ) - 1 / 2⌋ : ℤ) : ℝ)) ∧
    Round (23 / 10 : ℝ) = 2 ∧
    ((2 : ℝ) ≠ ((⌈(23 / 10 : ℝ) + 1 / 2⌉ : ℤ) : ℝ)) := by
  have hceil : (⌈(-(23 / 10) : ℝ) - 0.5⌉ : ℤ) = -2 := by
    rw [Int.ceil_eq_iff] <;> norm_num
  have hfloor : (⌊(-(23 / 10) : ℝ) - 1 / 2⌋ : ℤ) = -3 := by norm_num
  have hfloor2 : (⌊(23 / 10 : ℝ) + 0.5⌋ : ℤ) = 2 := by norm_num
  have hceil2 : (⌈(23 / 10 : ℝ) + 1 / 2⌉ : ℤ) = 3 := by
    rw [Int.ceil_eq_iff] <;> norm_num
  refine ⟨?_, ?_, ?_, ?_⟩
  · rw [Round_of_neg (by norm_num), hceil]; norm_num
  · rw [hfloor]; norm_num
  · rw [Round_of_nonneg (by norm_num), hfloor2]; norm_num
  · rw [hceil2]; norm_num

/-- Claim C7 (corrected), amended: `Round` implements round half away from
zero — it is an odd function, equals `Floor(v + 0.5)` on non-negative
inputs and `Ceil(v - 0.5)` on negative inputs, is always within `1/2` of
its argument, and rounds halves away from zero (so it is not banker's
rounding: `Round 2.5 = 3`, not `2`). -/
theorem C7_amended (v : ℝ) :
    Round (-v) = -Round v ∧
    (0 ≤ v → Round v = ((⌊v + 1 / 2⌋ : ℤ) : ℝ)) ∧
    (v < 0 → Round v = ((⌈v - 1 / 2⌉ : ℤ) : ℝ)) ∧
    |Round v - v| ≤ 1 / 2 ∧
    Round (5 / 2 : ℝ) = 3 ∧ Round (-(5 / 2) : ℝ) = -3 ∧ Round (7 / 2 : ℝ) = 4 := by
  have h52 : Round (5 / 2 : ℝ) = 3 := by
    rw [Round_of_nonneg (by norm_num)]
    norm_num
  have h52' : Round (-(5 / 2) : ℝ) = -3 := by
    rw [Round_of_neg (by norm_num)]
    have : (⌈(-(5 / 2) : ℝ) - 0.5⌉ : ℤ) = -3 := by
      rw [Int.ceil_eq_iff] <;> norm_num
    rw [this]; norm_num
  have h72 : Round (7 / 2 : ℝ) = 4 := by
    rw [Round_of_nonneg (by norm_num)]
    norm_num
  refine ⟨?_, ?_, ?_, ?_, h52, h52', h72⟩
  · rcases lt_trichotomy v 0 with hv | hv | hv
    · rw [Round_of_neg hv, Round_of_nonneg (show ¬ (-v : ℝ) < 0 by linarith)]
      have hrw : (-v : ℝ) + 0.5 = -(v - 0.5) := by ring
      rw [hrw, Int.floor_neg]
      push_cast; ring
    · subst hv
      rw [neg_zero, Round_of_nonneg (by norm_num)]
      norm_num
    · rw [Round_of_neg (show (-v : ℝ) < 0 by linarith),
        Round_of_nonneg (show ¬ (v : ℝ) < 0 by linarith)]
      have hrw : (-v : ℝ) - 0.5 = -(v + 0.5) := by ring
      rw [hrw, Int.ceil_neg]
      push_cast; ring
  · intro h
    rw [Round_of_nonneg (not_lt.2 h)]
    norm_num
  · intro h
    rw [Round_of_neg h]
    norm_num
  · by_cases hv : v < 0
    · rw [Round_of_neg hv, show (0.5 : ℝ) = 1 / 2 from by norm_num, abs_le]
      have h1 := Int.le_ceil (v - (1 / 2 : ℝ))
      have h2 := Int.ceil_lt_add_one (v - (1 / 2 : ℝ))
      constructor <;> linarith
    · rw [Round_of_nonneg hv, show (0.5 : ℝ) = 1 / 2 from by norm_num, abs_le]
      have h1 := Int.floor_le (v + (1 / 2 : ℝ))
      have h2 := Int.sub_one_lt_floor (v + (1 / 2 : ℝ))
      constructor <;> linarith

/-! ## Claim theorems: the write-time row flip (C2) -/

lemma writesOf_map_insert (tiles : List Tile) :
    writesOf (tiles.map fun t => Action.insertTile (keyOf t)) = tiles.map keyOf := by
  induction tiles with
  | nil => rfl
  | cons t ts ih =>
    simp only [List.map_cons, writesOf, List.filterMap_cons] at ih ⊢
    rw [show actionKey (Action.insertTile (keyOf t)) = some (keyOf t) from rfl]
    rw [ih]

lemma writesOf_mainTrace (tiles : List Tile) :
    writesOf (mainTrace tiles) = tiles.map keyOf := by
  unfold writesOf mainTrace
  rw [List.filterMap_append, List.filterMap_append]
  rw [show List.filterMap actionKey [Action.prepareDB, Action.setupTables] = [] from rfl]
  rw [show List.filterMap actionKey [Action.finalize, Action.logDone] = [] from rfl]
  rw [show List.filterMap actionKey (tiles.map fun t => Action.insertTile (keyOf t)) =
    writesOf (tiles.map fun t => Action.insertTile (keyOf t)) from rfl]
  rw [writesOf_map_insert]
  simp

/-- Claim C2 (corrected), counterexample: the claim quantifies over every
tile persisted by "the writer", but the repository has two writer
variants — the `addToMBTile` of the first embedded program inserts the
enumerated row unchanged.  For the tile `(z=5, x=3, y=10)` that writer
stores row `10`, not `2^5 - 1 - 10 = 21`. -/
theorem C2_counterexample :
    (addToMBTile_v1 { z := 5, x := 3, y := 10, Content := [] }).1 =
      ((5 : ℕ), (3 : ℤ), (10 : ℤ)) ∧
    ((5 : ℕ), (3 : ℤ), (10 : ℤ)) ≠ ((5 : ℕ), (3 : ℤ), (21 : ℤ)) := by
  exact ⟨rfl, by decide⟩

/-- Claim C2 (corrected), amended: in the writers of `mbutil.go` and of
the second embedded program, the stored row is `2^zoom - 1 - row_xyz`;
the flip happens exactly once, at write time (`addToMBTile` via
`flipped_y`), never during enumeration — the keys written by a run are
the enumerated tiles' coordinates with the flip applied exactly once
each, and `(z=5, x=3, y=10)` is stored with row `21`.  The `addToMBTile`
of the first embedded program applies no flip and stores the enumerated
XYZ row unchanged. -/
theorem C2_store_row_flip :
    (∀ t : Tile, (addToMBTile t).1 = (t.z, t.x, 2 ^ t.z - 1 - t.y)) ∧
    flipped_y { z := 5, x := 3, y := 10, Content := [] } = 21 ∧
    (∀ (xmin ymin xmax ymax : ℝ) (zf zt : ℕ),
      writesOf (mainTrace (TileList xmin ymin xmax ymax zf zt)) =
        (TileList xmin ymin xmax ymax zf zt).map fun t =>
          (t.z, t.x, 2 ^ t.z - 1 - t.y)) ∧
    (∀ t : Tile, (addToMBTile_v1 t).1 = (t.z, t.x, t.y)) := by
  refine ⟨fun t => rfl, by decide, fun xmin ymin xmax ymax zf zt => ?_, fun t => rfl⟩
  rw [writesOf_mainTrace]
  rfl

/-! ## Claim theorems: the range invariant and enumeration order (C1, C9) -/

/-- Claim C1 (confirmed): every coordinate emitted by `TileList` satisfies
`0 ≤ column < 2^zoom` and `0 ≤ row < 2^zoom`; moreover membership in the
enumeration is exactly "inside the projected rectangle and inside the
valid grid", so out-of-range indices are dropped — not wrapped and not
clamped to the boundary. -/
theorem C1_range_invariant (xmin ymin xmax ymax : ℝ) (zf zt : ℕ) :
    (∀ t ∈ TileList xmin ymin xmax ymax zf zt,
        0 ≤ t.x ∧ t.x < 2 ^ t.z ∧ 0 ≤ t.y ∧ t.y < 2 ^ t.z) ∧
    (∀ t : Tile, t ∈ TileList xmin ymin xmax ymax zf zt ↔
        zf ≤ t.z ∧ t.z ≤ zt ∧ t.Content = [] ∧
        xrangeStart xmin ymax t.z ≤ t.x ∧ t.x ≤ xrangeEnd xmax ymin t.z ∧
        yrangeStart xmin ymax t.z ≤ t.y ∧ t.y ≤ yrangeEnd xmax ymin t.z ∧
        0 ≤ t.x ∧ t.x < 2 ^ t.z ∧ 0 ≤ t.y ∧ t.y < 2 ^ t.z) := by
  constructor
  · intro t ht
    obtain ⟨-, -, -, -, -, -, -, h8, h9, h10, h11⟩ := mem_TileList.1 ht
    exact ⟨h8, h9, h10, h11⟩
  · intro t
    exact mem_TileList

/-- Claim C9 (confirmed): the enumerated sequence is the concatenation of
the per-zoom lists over the ascending `levels` list, and the whole
sequence is strictly sorted by (zoom, column, row) — ascending zoom, then
ascending column within a zoom, then ascending row within a column.
Determinism is immediate: `TileList` is a pure function of its inputs. -/
theorem C9_enumeration_order (xmin ymin xmax ymax : ℝ) (zf zt : ℕ) (hz : zf ≤ zt) :
    TileList xmin ymin xmax ymax zf zt =
      (levels zf zt).flatMap (fun zoom =>
        tilesAtZoom zoom (xrangeStart xmin ymax zoom) (xrangeEnd xmax ymin zoom)
          (yrangeStart xmin ymax zoom) (yrangeEnd xmax ymin zoom)) ∧
    (levels zf zt).Pairwise (· < ·) ∧
    (TileList xmin ymin xmax ymax zf zt).Pairwise tileLt :=
  ⟨rfl, pairwise_levels zf zt, pairwise_TileList xmin ymin xmax ymax zf zt⟩

/-! ## Concrete evaluations of the projection -/

lemma project_pixels_fst (x y : ℝ) (z : ℕ) :
    (project_pixels x y z).1 = Round (Zc z + x * Bc z) := rfl

lemma project_pixels_snd (x y : ℝ) (z : ℕ) :
    (project_pixels x y z).2 =
      Round (Zc z + 0.5 * Real.log
        ((1 + minMax (Real.sin (DEG_TO_RAD * y)) (-0.9999) 0.9999) /
         (1 - minMax (Real.sin (DEG_TO_RAD * y)) (-0.9999) 0.9999)) * -(Cc z)) := rfl

lemma xrangeEnd_eq_start (a b : ℝ) (z : ℕ) : xrangeEnd a b z = xrangeStart a b z := rfl

lemma yrangeEnd_eq_start (a b : ℝ) (z : ℕ) : yrangeEnd a b z = yrangeStart a b z := rfl

lemma project_pixels_snd_zero (x : ℝ) (z : ℕ) :
    (project_pixels x 0 z).2 = Round (Zc z) := by
  rw [project_pixels_snd]
  rw [mul_zero, Real.sin_zero]
  norm_num [minMax, max_def, min_def, Real.log_one]

lemma Zc_zero : Zc 0 = 128 := by
  unfold Zc
  rw [cSeq_eq]
  norm_num

lemma Zc_ten : Zc 10 = 131072 := by
  unfold Zc
  rw [cSeq_eq]
  norm_num

lemma Round_128 : Round (128 : ℝ) = 128 := by
  rw [Round_of_nonneg (by norm_num)]
  norm_num

lemma Round_131072 : Round (131072 : ℝ) = 131072 := by
  rw [Round_of_nonneg (by norm_num)]
  norm_num

lemma proj_fst_zero_lon (y : ℝ) (z : ℕ) : (project_pixels 0 y z).1 = Round (Zc z) := by
  rw [project_pixels_fst, zero_mul, add_zero]

lemma xrs000 : xrangeStart 0 0 0 = 0 := by
  unfold xrangeStart
  rw [proj_fst_zero_lon, Zc_zero, Round_128]
  rw [trunc_of_nonneg (by norm_num)]
  norm_num

lemma yrs000 : yrangeStart 0 0 0 = 0 := by
  unfold yrangeStart
  rw [project_pixels_snd_zero, Zc_zero, Round_128]
  rw [trunc_of_nonneg (by norm_num)]
  norm_num

lemma tileList000 : TileList 0 0 0 0 0 0 = [t000] := by
  unfold TileList
  rw [show levels 0 0 = [0] from rfl]
  rw [List.flatMap_cons, List.flatMap_nil]
  rw [xrangeEnd_eq_start, yrangeEnd_eq_start, xrs000, yrs000]
  decide

lemma mem000 : t000 ∈ TileList 0 0 0 0 0 0 := by
  rw [tileList000]
  exact List.mem_singleton.2 rfl

/-- Claim C1, witness: a concrete membership discharging the hypothesis of
the range-invariant theorem. -/
theorem C1_witness :
    t000 ∈ TileList 0 0 0 0 0 0 ∧
    (0 ≤ t000.x ∧ t000.x < 2 ^ t000.z ∧ 0 ≤ t000.y ∧ t000.y < 2 ^ t000.z) :=
  ⟨mem000, (C1_range_invariant 0 0 0 0 0 0).1 t000 mem000⟩

/-- Claim C9, witness: the ordering theorem applied to a concrete run. -/
theorem C9_witness :
    (0 : ℕ) ≤ 0 ∧
    (TileList 0 0 0 0 0 0 =
      (levels 0 0).flatMap (fun zoom =>
        tilesAtZoom zoom (xrangeStart 0 0 zoom) (xrangeEnd 0 0 zoom)
          (yrangeStart 0 0 zoom) (yrangeEnd 0 0 zoom)) ∧
    (levels 0 0).Pairwise (· < ·) ∧
    (TileList 0 0 0 0 0 0).Pairwise tileLt) :=
  ⟨Nat.le_refl 0, C9_enumeration_order 0 0 0 0 0 0 (Nat.le_refl 0)⟩

lemma xrs200 : xrangeStart 200 0 10 = 1080 := by
  unfold xrangeStart
  rw [project_pixels_fst]
  have h1 : Zc 10 + 200 * Bc 10 = 2490368 / 9 := by
    unfold Zc Bc
    rw [cSeq_eq]
    norm_num
  rw [h1, Round_of_nonneg (by norm_num)]
  have h2 : (⌊(2490368 / 9 : ℝ) + 0.5⌋ : ℤ) = 276708 := by norm_num
  rw [h2]
  rw [trunc_of_nonneg (by push_cast; norm_num)]
  push_cast
  norm_num

lemma yrs200 : yrangeStart 200 0 10 = 512 := by
  unfold yrangeStart
  rw [project_pixels_snd_zero, Zc_ten, Round_131072]
  rw [trunc_of_nonneg (by norm_num)]
  norm_num

lemma tileList200 : TileList 200 0 200 0 10 10 = [] := by
  unfold TileList
  rw [show levels 10 10 = [10] from rfl]
  rw [List.flatMap_cons, List.flatMap_nil]
  rw [xrangeEnd_eq_start, yrangeEnd_eq_start, xrs200, yrs200]
  decide

/-! ## Claim theorems: degenerate bounding boxes (C6) -/

/-- Claim C6 (corrected), counterexample: the degenerate bounding box at
`lon = 200`, `lat = 0` yields zero tiles at zoom 10, not exactly one —
its projected column index (1080) falls outside `[0, 2^10)` and is
clipped. -/
theorem C6_counterexample :
    TileList 200 0 200 0 10 10 = [] ∧ (TileList 200 0 200 0 10 10).length ≠ 1 := by
  refine ⟨tileList200, ?_⟩
  rw [tileList200]
  decide

lemma intRange_self (c : ℤ) : intRange c c = [c] := by
  unfold intRange
  rw [show (c + 1 - c).toNat = 1 by omega]
  rw [show List.range 1 = [0] from rfl, List.map_cons, List.map_nil]
  norm_num

lemma tilesAtZoom_single (z : ℕ) (a b : ℤ) :
    tilesAtZoom z a a b b =
      if 0 ≤ a ∧ a < 2 ^ z ∧ 0 ≤ b ∧ b < 2 ^ z
      then [{ z := z, x := a, y := b, Content := [] }] else [] := by
  rw [tilesAtZoom_eq_flatMap, intRange_self, intRange_self]
  rw [List.flatMap_cons, List.flatMap_nil, List.append_nil]
  by_cases hx : a < 0 ∨ (2 : ℤ) ^ z ≤ a
  · rw [if_pos hx, if_neg (by omega)]
  · rw [if_neg hx, List.flatMap_cons, List.flatMap_nil, List.append_nil]
    by_cases hy : b < 0 ∨ (2 : ℤ) ^ z ≤ b
    · rw [if_pos hy, if_neg (by omega)]
    · rw [if_neg hy, if_pos (by omega)]

/-- Claim C6 (corrected), amended: a degenerate bounding box
(`minLon = maxLon`, `minLat = maxLat`) yields at most one tile at
zoom 10, and exactly one precisely when its single truncated pixel index
pair lies inside `[0, 2^10)`; for inputs whose projection lands outside
the grid (e.g. `lon = 200`) it yields zero tiles. -/
theorem C6_amended (lon lat : ℝ) :
    (TileList lon lat lon lat 10 10).length ≤ 1 ∧
    ((TileList lon lat lon lat 10 10).length = 1 ↔
      0 ≤ xrangeStart lon lat 10 ∧ xrangeStart lon lat 10 < 2 ^ 10 ∧
      0 ≤ yrangeStart lon lat 10 ∧ yrangeStart lon lat 10 < 2 ^ 10) := by
  have heq : TileList lon lat lon lat 10 10 =
      if 0 ≤ xrangeStart lon lat 10 ∧ xrangeStart lon lat 10 < 2 ^ 10 ∧
        0 ≤ yrangeStart lon lat 10 ∧ yrangeStart lon lat 10 < 2 ^ 10
      then [Tile.mk 10 (xrangeStart lon lat 10) (yrangeStart lon lat 10) []]
      else [] := by
    unfold TileList
    rw [show levels 10 10 = [10] from rfl]
    rw [List.flatMap_cons, List.flatMap_nil, List.append_nil]
    rw [xrangeEnd_eq_start, yrangeEnd_eq_start]
    exact tilesAtZoom_single 10 _ _
  rw [heq]
  split_ifs with h
  · exact ⟨by simp, iff_of_true (by simp) h⟩
  · exact ⟨by simp, iff_of_false (by simp) h⟩

/-! ## Claim theorems: the zero-tile configuration check (C4) -/

/-- Claim C4 (corrected), counterexample: the `mbutil.go` entry point has
no zero-tile check — on a bounding box that enumerates zero tiles it
still prepares the store, creates the tables, runs finalize and logs
success, and never reports a configuration error. -/
theorem C4_counterexample :
    mainTrace (TileList 200 0 200 0 10 10) =
      [Action.prepareDB, Action.setupTables, Action.finalize, Action.logDone] ∧
    Action.finalize ∈ mainTrace (TileList 200 0 200 0 10 10) ∧
    Action.report ∉ mainTrace (TileList 200 0 200 0 10 10) := by
  rw [tileList200]
  exact ⟨rfl, by decide, by decide⟩

/-- Claim C4 (corrected), amended: the zero-tile configuration check
exists only in the second embedded entry-point variant
(`checkedMainTrace`): there, zero enumerated tiles are reported and the
process exits with status 1 before any store operation — no database
preparation, no tile write and no finalize occur. -/
theorem C4_amended (tiles : List Tile) (h : tiles.length = 0) :
    checkedMainTrace tiles = [Action.report, Action.exit1] ∧
    Action.finalize ∉ checkedMainTrace tiles ∧
    Action.prepareDB ∉ checkedMainTrace tiles ∧
    ∀ k, Action.insertTile k ∉ checkedMainTrace tiles := by
  unfold checkedMainTrace
  rw [if_pos h]
  exact ⟨rfl, by decide, by decide, fun k => by simp⟩

/-- Claim C4, witness: the amended theorem applied to the concrete
zero-tile enumeration. -/
theorem C4_witness :
    (TileList 200 0 200 0 10 10).length = 0 ∧
    (checkedMainTrace (TileList 200 0 200 0 10 10) = [Action.report, Action.exit1] ∧
     Action.finalize ∉ checkedMainTrace (TileList 200 0 200 0 10 10) ∧
     Action.prepareDB ∉ checkedMainTrace (TileList 200 0 200 0 10 10) ∧
     ∀ k, Action.insertTile k ∉ checkedMainTrace (TileList 200 0 200 0 10 10)) :=
  have h : (TileList 200 0 200 0 10 10).length = 0 := by rw [tileList200]; rfl
  ⟨h, C4_amended _ h⟩

/-! ## The pipeline invariant (C3) -/

lemma inv_init (tiles : List Tile) : Inv tiles (pInit tiles) := by
  refine ⟨0, by simp [pInit], by simp [pInit], by simp [pInit], by simp [pInit], ?_⟩
  intro h
  simp [pInit] at h

lemma card_done_le {tiles : List Tile} {s : PState} {done : Multiset Tile}
    (h : s.pending + s.fetched + done = (tiles : Multiset Tile)) :
    Multiset.card done ≤ tiles.length := by
  have hle : done ≤ (tiles : Multiset Tile) := by
    rw [← h]
    exact Multiset.le_add_left _ _
  calc Multiset.card done ≤ Multiset.card (tiles : Multiset Tile) :=
        Multiset.card_le_card hle
    _ = tiles.length := by simp

lemma inv_step {N : ℕ} {tiles : List Tile} {s s' : PState} (hN : N = tiles.length)
    (hstep : PStep N s s') (hinv : Inv tiles s) : Inv tiles s' := by
  obtain ⟨done, h1, h2, h3, h4, h5⟩ := hinv
  cases hstep with
  | fetch t _ _ h hp hf hs hq ha hn =>
    refine ⟨done, ?_, by rw [hs, h2], by rw [hq, ha]; exact h3,
      by rw [hn]; exact h4, by rw [hn, ha]; exact h5⟩
    rw [hp, hf, ← h1]
    have hpe : s.pending = t ::ₘ s.pending.erase t := (Multiset.cons_erase h).symm
    calc s.pending.erase t + (t ::ₘ s.fetched) + done
        = (t ::ₘ s.pending.erase t) + s.fetched + done := by
          simp only [← Multiset.singleton_add]
          abel
      _ = s.pending + s.fetched + done := by rw [← hpe]
  | write t _ _ h hp hf hs hq ha hn =>
    refine ⟨t ::ₘ done, ?_, ?_, ?_, by rw [hn]; exact h4, by rw [hn, ha]; exact h5⟩
    · rw [hp, hf, ← h1]
      have hfe : s.fetched = t ::ₘ s.fetched.erase t := (Multiset.cons_erase h).symm
      calc s.pending + s.fetched.erase t + (t ::ₘ done)
          = s.pending + (t ::ₘ s.fetched.erase t) + done := by
            simp only [← Multiset.singleton_add]
            abel
        _ = s.pending + s.fetched + done := by rw [← hfe]
    · rw [hs, h2, Multiset.map_cons]
    · rw [hq, ha, Multiset.card_cons]
      omega
  | ack _ _ h hp hf hs hq ha hn =>
    refine ⟨done, by rw [hp, hf]; exact h1, by rw [hs]; exact h2,
      by rw [hq, ha]; omega, by rw [hn]; exact h4, ?_⟩
    intro hf1
    exfalso
    have hsf : s.fin = 1 := by rw [← hn]; exact hf1
    have hacks := h5 hsf
    have hcard := card_done_le h1
    omega
  | finalize _ _ hacks hfin hp hf hs hq ha hn =>
    refine ⟨done, by rw [hp, hf]; exact h1, by rw [hs]; exact h2,
      by rw [hq, ha]; exact h3, by rw [hn, hfin], ?_⟩
    intro _
    rw [ha, hacks, hN]

lemma inv_reach {tiles : List Tile} {s : PState}
    (h : Reach tiles.length (pInit tiles) s) : Inv tiles s := by
  unfold Reach at h
  induction h with
  | refl => exact inv_init tiles
  | tail hab hstep ih => exact inv_step rfl hstep ih

/-- Claim C3 (confirmed): in any pipeline run over the enumerated tile
list, finalize runs at most once; when it has run, the orchestrator has
received exactly `N` acknowledgments (where `N` is the enumerated count),
and the store holds exactly the `N` keys of the enumerated tiles —
pairwise distinct `(zoom, column, row_store)` entries.  (Finalize is only
enabled once `N` acknowledgments are in, by `PStep.finalize`.) -/
theorem C3_pipeline_completion (xmin ymin xmax ymax : ℝ) (zf zt : ℕ) (s : PState)
    (hre : Reach (TileList xmin ymin xmax ymax zf zt).length
      (pInit (TileList xmin ymin xmax ymax zf zt)) s) :
    s.fin ≤ 1 ∧
    (s.fin = 1 →
      s.acks = (TileList xmin ymin xmax ymax zf zt).length ∧
      s.store =
        ((TileList xmin ymin xmax ymax zf zt).map keyOf : Multiset (ℕ × ℤ × ℤ)) ∧
      Multiset.card s.store = (TileList xmin ymin xmax ymax zf zt).length ∧
      s.store.Nodup) := by
  obtain ⟨done, h1, h2, h3, h4, h5⟩ := inv_reach hre
  refine ⟨h4, fun hfin => ?_⟩
  have hacks := h5 hfin
  have hcard := card_done_le h1
  have hdone_le : done ≤ ((TileList xmin ymin xmax ymax zf zt : List Tile) : Multiset Tile) := by
    rw [← h1]
    exact Multiset.le_add_left _ _
  have hdcard : (TileList xmin ymin xmax ymax zf zt).length ≤ Multiset.card done := by
    omega
  have hdone : done = ((TileList xmin ymin xmax ymax zf zt : List Tile) : Multiset Tile) :=
    Multiset.eq_of_le_of_card_le hdone_le (by simpa using hdcard)
  have hstore : s.store =
      ((TileList xmin ymin xmax ymax zf zt).map keyOf : Multiset (ℕ × ℤ × ℤ)) := by
    rw [h2, hdone]
    simp
  refine ⟨hacks, hstore, ?_, ?_⟩
  · rw [hstore]
    simp
  · rw [hstore]
    rw [Multiset.coe_nodup]
    exact (nodup_TileList xmin ymin xmax ymax zf zt).map_on keyOf_inj_on_TileList

lemma step01 : PStep 1 ps0 ps1 :=
  PStep.fetch t000 ps0 ps1 (by decide) (by decide) (by decide) (by decide)
    (by decide) (by decide) (by decide)

lemma step12 : PStep 1 ps1 ps2 :=
  PStep.write t000 ps1 ps2 (by decide) (by decide) (by decide) (by decide)
    (by decide) (by decide) (by decide)

lemma step23 : PStep 1 ps2 ps3 :=
  PStep.ack ps2 ps3 (by decide) (by decide) (by decide) (by decide)
    (by decide) (by decide) (by decide)

lemma step34 : PStep 1 ps3 ps4 :=
  PStep.finalize ps3 ps4 (by decide) (by decide) (by decide) (by decide)
    (by decide) (by decide) (by decide) (by decide)

lemma reach04 : Reach 1 ps0 ps4 :=
  Relation.ReflTransGen.tail
    (Relation.ReflTransGen.tail
      (Relation.ReflTransGen.tail
        (Relation.ReflTransGen.tail Relation.ReflTransGen.refl step01)
        step12)
      step23)
    step34

lemma reach_concrete :
    Reach (TileList 0 0 0 0 0 0).length (pInit (TileList 0 0 0 0 0 0)) ps4 := by
  rw [tileList000]
  exact reach04

/-- Claim C3, witness: a concrete four-step execution (fetch, write, ack,
finalize) of the pipeline over a one-tile enumeration reaches a finalized
state, discharging the reachability hypothesis of the pipeline theorem. -/
theorem C3_witness :
    Reach (TileList 0 0 0 0 0 0).length (pInit (TileList 0 0 0 0 0 0)) ps4 ∧
    ps4.fin = 1 ∧
    (ps4.fin ≤ 1 ∧
      (ps4.fin = 1 →
        ps4.acks = (TileList 0 0 0 0 0 0).length ∧
        ps4.store = ((TileList 0 0 0 0 0 0).map keyOf : Multiset (ℕ × ℤ × ℤ)) ∧
        Multiset.card ps4.store = (TileList 0 0 0 0 0 0).length ∧
        ps4.store.Nodup)) :=
  ⟨reach_concrete, rfl, C3_pipeline_completion 0 0 0 0 0 0 ps4 reach_concrete⟩

/-- Claim C7, witness: the amended rounding theorem applied at `v = 1` and
`v = -1`, discharging the sign hypotheses of its two conditional parts. -/
theorem C7_witness :
    ((0 : ℝ) ≤ 1 ∧ Round (1 : ℝ) = ((⌊(1 : ℝ) + 1 / 2⌋ : ℤ) : ℝ)) ∧
    ((-1 : ℝ) < 0 ∧ Round (-1 : ℝ) = ((⌈(-1 : ℝ) - 1 / 2⌉ : ℤ) : ℝ)) :=
  ⟨⟨by norm_num, (C7_amended 1).2.1 (by norm_num)⟩,
   ⟨by norm_num, (C7_amended (-1)).2.2.1 (by norm_num)⟩⟩

/-! ## Claim theorems: bbox monotonicity (C8) -/

lemma log_clamp_gt : 2 * Real.pi < Real.log 19999 := by
  rw [Real.lt_log_iff_exp_lt (by norm_num : (0:ℝ) < 19999)]
  have h7 : (2:ℝ) * Real.pi < 7 := by nlinarith [Real.pi_lt_d2]
  have hm : Real.exp (2 * Real.pi) < Real.exp 7 := Real.exp_lt_exp.2 h7
  have he : Real.exp 7 = Real.exp 1 ^ 7 := by
    rw [← Real.exp_nat_mul]
    norm_num
  have hb : Real.exp 1 ^ 7 < 2.7182818286 ^ 7 :=
    pow_lt_pow_left₀ Real.exp_one_lt_d9 (Real.exp_pos 1).le (by norm_num)
  have hn : (2.7182818286 : ℝ) ^ 7 < 19999 := by norm_num
  linarith [he ▸ hm]

lemma clamp_top : minMax (1 : ℝ) (-0.9999) 0.9999 = 0.9999 := by
  unfold minMax
  rw [max_def, min_def]
  norm_num

lemma clamp_bot : minMax (-1 : ℝ) (-0.9999) 0.9999 = -0.9999 := by
  unfold minMax
  rw [max_def, min_def]
  norm_num

lemma deg90 : DEG_TO_RAD * 90 = Real.pi / 2 := by
  unfold DEG_TO_RAD
  ring

lemma deg270 : DEG_TO_RAD * 270 = Real.pi / 2 + Real.pi := by
  unfold DEG_TO_RAD
  ring

lemma degneg90 : DEG_TO_RAD * (-90) = -(Real.pi / 2) := by
  unfold DEG_TO_RAD
  ring

lemma sin_90 : Real.sin (DEG_TO_RAD * 90) = 1 := by
  rw [deg90, Real.sin_pi_div_two]

lemma sin_270 : Real.sin (DEG_TO_RAD * 270) = -1 := by
  rw [deg270, Real.sin_add_pi, Real.sin_pi_div_two]

lemma sin_neg90 : Real.sin (DEG_TO_RAD * (-90)) = -1 := by
  rw [degneg90, Real.sin_neg, Real.sin_pi_div_two]

lemma Zc_one : Zc 1 = 256 := by
  unfold Zc
  rw [cSeq_eq]
  norm_num

lemma Cc_one : Cc 1 = 256 / Real.pi := by
  unfold Cc
  rw [cSeq_eq]
  have hpi := Real.pi_ne_zero
  field_simp
  ring

lemma ypix_bot (x lat : ℝ) (hsin : Real.sin (DEG_TO_RAD * lat) = -1) :
    (512 : ℝ) ≤ (project_pixels x lat 1).2 := by
  rw [project_pixels_snd, hsin, clamp_bot]
  rw [show ((1 + (-0.9999 : ℝ)) / (1 - (-0.9999))) = (19999 : ℝ)⁻¹ by norm_num,
    Real.log_inv]
  rw [Zc_one, Cc_one]
  have hpi := Real.pi_pos
  have hL := log_clamp_gt
  have hv : (256 : ℝ) + 0.5 * -Real.log 19999 * -(256 / Real.pi) =
      256 + 128 * Real.log 19999 / Real.pi := by ring
  rw [hv]
  have h2 : (256 : ℝ) ≤ 128 * Real.log 19999 / Real.pi := by
    rw [le_div_iff₀ hpi]
    linarith
  rw [Round_of_nonneg (by linarith)]
  have h3 : (512 : ℤ) ≤ ⌊(256 + 128 * Real.log 19999 / Real.pi) + 0.5⌋ :=
    Int.le_floor.2 (by push_cast; linarith)
  exact_mod_cast h3

lemma ypix_top (x lat : ℝ) (hsin : Real.sin (DEG_TO_RAD * lat) = 1) :
    (project_pixels x lat 1).2 ≤ 0 := by
  rw [project_pixels_snd, hsin, clamp_top]
  rw [show ((1 + (0.9999 : ℝ)) / (1 - 0.9999)) = (19999 : ℝ) by norm_num]
  rw [Zc_one, Cc_one]
  have hpi := Real.pi_pos
  have hL := log_clamp_gt
  have hv : (256 : ℝ) + 0.5 * Real.log 19999 * -(256 / Real.pi) =
      256 - 128 * Real.log 19999 / Real.pi := by ring
  rw [hv]
  have h2 : (256 : ℝ) < 128 * Real.log 19999 / Real.pi := by
    rw [lt_div_iff₀ hpi]
    linarith
  rw [Round_of_neg (by linarith)]
  have h3 : (⌈(256 - 128 * Real.log 19999 / Real.pi) - 0.5⌉ : ℤ) ≤ 0 :=
    Int.ceil_le.2 (by push_cast; linarith)
  exact_mod_cast h3

lemma yr_ge_two (x lat : ℝ) (hsin : Real.sin (DEG_TO_RAD * lat) = -1) :
    2 ≤ trunc ((project_pixels x lat 1).2 / 256) := by
  have h := ypix_bot x lat hsin
  apply le_trunc_of_le ?_ (by norm_num)
  rw [le_div_iff₀ (by norm_num : (0:ℝ) < 256)]
  push_cast
  linarith

lemma yr_le_zero (x lat : ℝ) (hsin : Real.sin (DEG_TO_RAD * lat) = 1) :
    trunc ((project_pixels x lat 1).2 / 256) ≤ 0 := by
  have h := ypix_top x lat hsin
  apply trunc_nonpos
  rw [div_nonpos_iff]
  right
  exact ⟨h, by norm_num⟩

lemma xr1_zero (y : ℝ) : trunc ((project_pixels 0 y 1).1 / 256) = 1 := by
  rw [proj_fst_zero_lon, Zc_one]
  rw [show Round (256 : ℝ) = 256 by rw [Round_of_nonneg (by norm_num)]; norm_num]
  rw [trunc_of_nonneg (by norm_num)]
  norm_num

lemma xr1_ten (y : ℝ) : trunc ((project_pixels 10 y 1).1 / 256) = 1 := by
  rw [project_pixels_fst]
  have h1 : Zc 1 + 10 * Bc 1 = 2432 / 9 := by
    unfold Zc Bc
    rw [cSeq_eq]
    norm_num
  rw [h1, Round_of_nonneg (by norm_num)]
  rw [show (⌊(2432 / 9 : ℝ) + 0.5⌋ : ℤ) = 270 by norm_num]
  rw [trunc_of_nonneg (by push_cast; norm_num)]
  push_cast
  norm_num

lemma mem_B : Tile.mk 1 1 0 [] ∈ TileList 0 (-90) 10 90 1 1 := by
  rw [mem_TileList]
  refine ⟨le_refl 1, le_refl 1, rfl, ?_, ?_, ?_, ?_, ?_, ?_, ?_, ?_⟩
  · show xrangeStart 0 90 1 ≤ 1
    unfold xrangeStart
    rw [xr1_zero]
  · show (1 : ℤ) ≤ xrangeEnd 10 (-90) 1
    unfold xrangeEnd
    rw [xr1_ten]
  · show yrangeStart 0 90 1 ≤ 0
    unfold yrangeStart
    exact yr_le_zero 0 90 sin_90
  · show (0 : ℤ) ≤ yrangeEnd 10 (-90) 1
    unfold yrangeEnd
    have h := yr_ge_two 10 (-90) sin_neg90
    omega
  · show (0 : ℤ) ≤ 1
    norm_num
  · show (1 : ℤ) < 2 ^ 1
    norm_num
  · show (0 : ℤ) ≤ 0
    exact le_refl 0
  · show (0 : ℤ) < 2 ^ 1
    norm_num

lemma not_mem_B' : Tile.mk 1 1 0 [] ∉ TileList 0 (-90) 10 270 1 1 := by
  intro hmem
  have h := mem_TileList.1 hmem
  have h6 : yrangeStart 0 270 1 ≤ 0 := h.2.2.2.2.2.1
  have h2 : 2 ≤ yrangeStart 0 270 1 := by
    unfold yrangeStart
    exact yr_ge_two 0 270 sin_270
  omega

/-- Claim C8 (corrected), counterexample: the bounding box
`B' = [0,10] × [-90,270]` contains the non-degenerate box
`B = [0,10] × [-90,90]`, yet at zoom 1 tile `(x=1, y=0)` is enumerated
for `B` and not for `B'` — beyond latitude 90 the sine in the projection
turns back, so enlarging the box pushes the projected row range out of
the grid and the enumeration shrinks to nothing. -/
theorem C8_counterexample :
    (Tile.mk 1 1 0 [] ∈ TileList 0 (-90) 10 90 1 1) ∧
    (Tile.mk 1 1 0 [] ∉ TileList 0 (-90) 10 270 1 1) ∧
    ((0:ℝ) ≤ 0 ∧ (-90:ℝ) ≤ -90 ∧ (10:ℝ) ≤ 10 ∧ (90:ℝ) ≤ 270) ∧
    ((0:ℝ) < 10 ∧ (-90:ℝ) < 90) ∧ ((0:ℝ) < 10 ∧ (-90:ℝ) < 270) :=
  ⟨mem_B, not_mem_B', by norm_num, by norm_num, by norm_num⟩

lemma minMax_le_top (a : ℝ) : minMax a (-0.9999) 0.9999 ≤ 0.9999 :=
  min_le_right _ _

lemma bot_le_minMax (a : ℝ) : -0.9999 ≤ minMax a (-0.9999) 0.9999 :=
  le_min (le_max_right _ _) (by norm_num)

lemma minMax_mono {a b : ℝ} (h : a ≤ b) :
    minMax a (-0.9999) 0.9999 ≤ minMax b (-0.9999) 0.9999 :=
  min_le_min (max_le_max h le_rfl) le_rfl

lemma latf_mono {lat lat' : ℝ} (h : lat ≤ lat') (h1 : -90 ≤ lat) (h2 : lat' ≤ 90) :
    minMax (Real.sin (DEG_TO_RAD * lat)) (-0.9999) 0.9999 ≤
      minMax (Real.sin (DEG_TO_RAD * lat')) (-0.9999) 0.9999 := by
  apply minMax_mono
  have hpi := Real.pi_pos
  have hd : (0:ℝ) < DEG_TO_RAD := by
    unfold DEG_TO_RAD
    positivity
  have hlat : lat ≤ 90 := le_trans h h2
  have hlat' : -90 ≤ lat' := le_trans h1 h
  have hb1 : -(Real.pi/2) ≤ DEG_TO_RAD * lat := by
    unfold DEG_TO_RAD
    nlinarith [mul_nonneg (by positivity : (0:ℝ) ≤ Real.pi/180)
      (by linarith : (0:ℝ) ≤ lat + 90)]
  have hb2 : DEG_TO_RAD * lat ≤ Real.pi/2 := by
    unfold DEG_TO_RAD
    nlinarith [mul_nonneg (by positivity : (0:ℝ) ≤ Real.pi/180)
      (by linarith : (0:ℝ) ≤ 90 - lat)]
  have hb3 : -(Real.pi/2) ≤ DEG_TO_RAD * lat' := by
    unfold DEG_TO_RAD
    nlinarith [mul_nonneg (by positivity : (0:ℝ) ≤ Real.pi/180)
      (by linarith : (0:ℝ) ≤ lat' + 90)]
  have hb4 : DEG_TO_RAD * lat' ≤ Real.pi/2 := by
    unfold DEG_TO_RAD
    nlinarith [mul_nonneg (by positivity : (0:ℝ) ≤ Real.pi/180)
      (by linarith : (0:ℝ) ≤ 90 - lat')]
  exact Real.strictMonoOn_sin.monotoneOn ⟨hb1, hb2⟩ ⟨hb3, hb4⟩
    (mul_le_mul_of_nonneg_left h hd.le)

lemma logit_mono {a b : ℝ} (ha : -1 < a) (hb : b < 1) (h : a ≤ b) :
    Real.log ((1 + a) / (1 - a)) ≤ Real.log ((1 + b) / (1 - b)) := by
  have h1 : (0:ℝ) < 1 + a := by linarith
  have h2 : (0:ℝ) < 1 - b := by linarith
  have h3 : (0:ℝ) < 1 - a := by linarith
  have h4 : (0:ℝ) < 1 + b := by linarith
  apply Real.log_le_log (by positivity)
  rw [div_le_div_iff h3 h2]
  nlinarith

lemma ypix_mono (x1 x2 : ℝ) {lat lat' : ℝ} (z : ℕ) (h : lat ≤ lat')
    (hlo : -90 ≤ lat) (hhi : lat' ≤ 90) :
    (project_pixels x1 lat' z).2 ≤ (project_pixels x2 lat z).2 := by
  rw [project_pixels_snd, project_pixels_snd]
  apply Round_mono
  have hf := latf_mono h hlo hhi
  have hfa1 := bot_le_minMax (Real.sin (DEG_TO_RAD * lat))
  have hfb1 := minMax_le_top (Real.sin (DEG_TO_RAD * lat'))
  have hlog := logit_mono (a := minMax (Real.sin (DEG_TO_RAD * lat)) (-0.9999) 0.9999)
    (b := minMax (Real.sin (DEG_TO_RAD * lat')) (-0.9999) 0.9999)
    (by linarith) (by linarith) hf
  have hCc := Cc_pos z
  nlinarith [mul_nonneg (sub_nonneg.2 hlog) hCc.le]

lemma xpix_mono {x x' : ℝ} (y y' : ℝ) (z : ℕ) (h : x ≤ x') :
    (project_pixels x y z).1 ≤ (project_pixels x' y' z).1 := by
  rw [project_pixels_fst, project_pixels_fst]
  apply Round_mono
  have hb := Bc_pos z
  nlinarith [mul_le_mul_of_nonneg_right h hb.le]

/-- Claim C8 (corrected), amended: enlarging the bounding box never
shrinks the enumerated set at any zoom, provided all latitudes involved
lie within `[-90, 90]` (the monotone domain of the projection's sine). -/
theorem C8_amended (xmin ymin xmax ymax xmin' ymin' xmax' ymax' : ℝ) (zf zt : ℕ)
    (h1 : xmin' ≤ xmin) (h2 : ymin' ≤ ymin) (h3 : xmax ≤ xmax') (h4 : ymax ≤ ymax')
    (h5 : -90 ≤ ymin') (h6 : ymax' ≤ 90) (h7 : ymin ≤ ymax) :
    ∀ t ∈ TileList xmin ymin xmax ymax zf zt,
      t ∈ TileList xmin' ymin' xmax' ymax' zf zt := by
  intro t ht
  rw [mem_TileList] at ht ⊢
  obtain ⟨k1, k2, k3, k4, k5, k6, k7, k8, k9, k10, k11⟩ := ht
  have hdiv : ∀ a b : ℝ, a ≤ b → a / 256 ≤ b / 256 := fun a b hab =>
    div_le_div_of_nonneg_right hab (by norm_num)
  refine ⟨k1, k2, k3, ?_, ?_, ?_, ?_, k8, k9, k10, k11⟩
  · refine le_trans ?_ k4
    unfold xrangeStart
    exact trunc_mono (hdiv _ _ (xpix_mono _ _ _ h1))
  · refine le_trans k5 ?_
    unfold xrangeEnd
    exact trunc_mono (hdiv _ _ (xpix_mono _ _ _ h3))
  · refine le_trans ?_ k6
    unfold yrangeStart
    refine trunc_mono (hdiv _ _ (ypix_mono _ _ _ h4 ?_ h6))
    linarith
  · refine le_trans k7 ?_
    unfold yrangeEnd
    refine trunc_mono (hdiv _ _ (ypix_mono _ _ _ h2 h5 ?_))
    linarith

/-- Claim C8, witness: the amended monotonicity theorem applied to the
concrete pair `B = [0,10] × [0,0]` inside `B' = [-10,20] × [-10,10]`. -/
theorem C8_witness :
    ((-10:ℝ) ≤ 0 ∧ (-10:ℝ) ≤ 0 ∧ (10:ℝ) ≤ 20 ∧ (0:ℝ) ≤ 10 ∧
      (-90:ℝ) ≤ -10 ∧ (10:ℝ) ≤ 90 ∧ (0:ℝ) ≤ 0) ∧
    (∀ t ∈ TileList 0 0 10 0 0 0, t ∈ TileList (-10) (-10) 20 10 0 0) :=
  ⟨by norm_num,
    C8_amended 0 0 10 0 (-10) (-10) 20 10 0 0 (by norm_num) (by norm_num)
      (by norm_num) (by norm_num) (by norm_num) (by norm_num) (by norm_num)⟩

/-! ## String-replacement lemmas (C5) -/

lemma replCore_nil (f : ℕ) (old nw : List Char) : replCore f [] old nw = [] := by
  cases f <;> rfl

lemma old_ne_nil_of_cond {old s : List Char}
    (h : (!old.isEmpty && isPre old s) = true) : old ≠ [] := by
  intro he
  subst he
  simp at h

lemma replCore_fuel_irrel : ∀ (n f g : ℕ) (s old nw : List Char),
    s.length ≤ f → s.length ≤ g → s.length ≤ n →
    replCore f s old nw = replCore g s old nw := by
  intro n
  induction n with
  | zero =>
    intro f g s old nw hf hg hn
    have hs : s = [] := List.length_eq_zero.1 (Nat.le_zero.1 hn)
    subst hs
    rw [replCore_nil, replCore_nil]
  | succ n ih =>
    intro f g s old nw hf hg hn
    cases s with
    | nil => rw [replCore_nil, replCore_nil]
    | cons c rest =>
      rw [List.length_cons] at hf hg hn
      cases f with
      | zero => omega
      | succ f' =>
        cases g with
        | zero => omega
        | succ g' =>
          simp only [replCore]
          by_cases hcond : (!old.isEmpty && isPre old (c :: rest)) = true
          · rw [if_pos hcond, if_pos hcond]
            congr 1
            have hone : 1 ≤ old.length :=
              List.length_pos.2 (old_ne_nil_of_cond hcond)
            have hlen : ((c :: rest).drop old.length).length ≤ rest.length := by
              rw [List.length_drop, List.length_cons]
              omega
            exact ih f' g' _ old nw (by omega) (by omega) (by omega)
          · rw [if_neg hcond, if_neg hcond]
            congr 1
            exact ih f' g' rest old nw (by omega) (by omega) (by omega)

lemma goReplace_cons_pos {old : List Char} {c : Char} {rest : List Char} (nw : List Char)
    (h : (!old.isEmpty && isPre old (c :: rest)) = true) :
    goReplace (c :: rest) old nw =
      nw ++ goReplace ((c :: rest).drop old.length) old nw := by
  unfold goReplace
  rw [show (c :: rest).length = rest.length + 1 from rfl]
  simp only [replCore]
  rw [if_pos h]
  congr 1
  have hone : 1 ≤ old.length := List.length_pos.2 (old_ne_nil_of_cond h)
  have hlen : ((c :: rest).drop old.length).length ≤ rest.length := by
    rw [List.length_drop, List.length_cons]
    omega
  exact replCore_fuel_irrel ((c :: rest).drop old.length).length _ _ _ old nw
    (by omega) le_rfl le_rfl

lemma goReplace_cons_neg {old : List Char} {c : Char} {rest : List Char} (nw : List Char)
    (h : (!old.isEmpty && isPre old (c :: rest)) = false) :
    goReplace (c :: rest) old nw = c :: goReplace rest old nw := by
  unfold goReplace
  rw [show (c :: rest).length = rest.length + 1 from rfl]
  simp only [replCore]
  rw [if_neg (by simp [h])]

lemma isPre_append (tok rest : List Char) : isPre tok (tok ++ rest) = true := by
  induction tok with
  | nil => rfl
  | cons a pat ih => simp [isPre, ih]

lemma occursIn_head_false {tok : List Char} {c : Char} {rest : List Char}
    (h : occursIn tok (c :: rest) = false) :
    isPre tok (c :: rest) = false ∧ occursIn tok rest = false := by
  unfold occursIn at h
  exact Bool.or_eq_false_iff.1 h

lemma goReplace_no_occur {old s : List Char} (nw : List Char)
    (h : occursIn old s = false) : goReplace s old nw = s := by
  induction s with
  | nil => rfl
  | cons c rest ih =>
    obtain ⟨h1, h2⟩ := occursIn_head_false h
    rw [goReplace_cons_neg nw (by rw [h1, Bool.and_false])]
    rw [ih h2]

/-! ## No placeholder match can start inside a good segment list -/

lemma toks_cases {tok : List Char} (htok : tok ∈ TOKS) :
    tok = xTok ∨ tok = yTok ∨ tok = zTok := by
  simpa [TOKS] using htok

lemma tok_ne_nil {tok : List Char} (htok : tok ∈ TOKS) : tok ≠ [] := by
  rcases toks_cases htok with rfl | rfl | rfl <;> simp [xTok, yTok, zTok]

lemma isPre_lbrace_head {c : Char} {s : List Char} (tok : List Char)
    (htok : tok ∈ TOKS) (hc : c ≠ lbrace) : isPre tok (c :: s) = false := by
  rcases toks_cases htok with rfl | rfl | rfl <;>
    · show isPre (lbrace :: _) (c :: s) = false
      simp [isPre, Ne.symm hc]

lemma isPre_mid_false {m w : Char} (h : (m = w) = False) (r r' : Char) (Z : List Char) :
    isPre [lbrace, m, r] (lbrace :: w :: r' :: Z) = false := by
  simp [isPre, h]

lemma tok_split (w : Char) (x1 c'' : List Char)
    (h : [lbrace, w, rbrace] = x1 ++ lbrace :: c'') (hw : w ≠ lbrace) :
    x1 = [] ∧ c'' = [w, rbrace] := by
  rcases x1 with _ | ⟨a1, _ | ⟨a2, _ | ⟨a3, x1'⟩⟩⟩
  · rw [List.nil_append] at h
    injection h with h1 h2
    exact ⟨rfl, h2.symm⟩
  · rw [List.cons_append, List.nil_append] at h
    injection h with h1 h'
    injection h' with h2 h''
    exact absurd h2 hw
  · rw [List.cons_append, List.cons_append, List.nil_append] at h
    injection h with h1 h'
    injection h' with h2 h''
    injection h'' with h3 h'''
    exact absurd h3 (by decide : rbrace ≠ lbrace)
  · rw [List.cons_append, List.cons_append, List.cons_append] at h
    injection h with h1 h'
    injection h' with h2 h''
    injection h'' with h3 h'''
    simp at h'''

lemma no_match_inside (tok : List Char) (htok : tok ∈ TOKS) :
    ∀ (segs : List (List Char)), (∀ seg ∈ segs, segOk tok seg) →
      ∀ (x1 x2 : List Char), segs.flatten = x1 ++ x2 → x2 ≠ [] →
        ∀ Z : List Char, isPre tok (x2 ++ Z) = false := by
  intro segs
  induction segs with
  | nil =>
    intro _ x1 x2 h hne Z
    rcases List.append_eq_nil.1 h.symm with ⟨-, h2⟩
    exact absurd h2 hne
  | cons seg rest ih =>
    intro hsegs x1 x2 h hne Z
    rw [List.flatten_cons] at h
    rcases List.append_eq_append_iff.1 h with ⟨a', ha1, ha2⟩ | ⟨c', hc1, hc2⟩
    · exact ih (fun s hs => hsegs s (List.mem_cons_of_mem _ hs)) a' x2 ha2 hne Z
    · cases c' with
      | nil =>
        rw [List.nil_append] at hc2
        exact ih (fun s hs => hsegs s (List.mem_cons_of_mem _ hs)) [] x2
          (by rw [hc2, List.nil_append]) hne Z
      | cons ch c'' =>
        subst hc2
        simp only [List.cons_append, List.append_assoc]
        by_cases hch : ch = lbrace
        · subst hch
          rcases hsegs seg (List.mem_cons_self _ _) with hclean | ⟨hstok, hsne⟩
          · exact absurd rfl (hclean lbrace (by rw [hc1]; simp))
          · rcases toks_cases hstok with rfl | rfl | rfl
            · obtain ⟨-, hcc⟩ := tok_split 'x' x1 c'' hc1 (by decide)
              subst hcc
              rcases toks_cases htok with rfl | rfl | rfl
              · exact absurd rfl hsne
              · exact isPre_mid_false (by simp) _ _ _
              · exact isPre_mid_false (by simp) _ _ _
            · obtain ⟨-, hcc⟩ := tok_split 'y' x1 c'' hc1 (by decide)
              subst hcc
              rcases toks_cases htok with rfl | rfl | rfl
              · exact isPre_mid_false (by simp) _ _ _
              · exact absurd rfl hsne
              · exact isPre_mid_false (by simp) _ _ _
            · obtain ⟨-, hcc⟩ := tok_split 'z' x1 c'' hc1 (by decide)
              subst hcc
              rcases toks_cases htok with rfl | rfl | rfl
              · exact isPre_mid_false (by simp) _ _ _
              · exact isPre_mid_false (by simp) _ _ _
              · exact absurd rfl hsne
        · exact isPre_lbrace_head tok htok hch

lemma occursIn_false_of_no_match {tok s : List Char} (htokne : tok ≠ [])
    (h : ∀ x1 x2, s = x1 ++ x2 → x2 ≠ [] → isPre tok x2 = false) :
    occursIn tok s = false := by
  induction s with
  | nil =>
    cases tok with
    | nil => exact absurd rfl htokne
    | cons a b => rfl
  | cons c rest ih =>
    unfold occursIn
    rw [Bool.or_eq_false_iff]
    refine ⟨h [] (c :: rest) rfl (by simp), ?_⟩
    exact ih fun x1 x2 hx hne => h (c :: x1) x2 (by rw [hx, List.cons_append]) hne

lemma occursIn_flatten_false {tok : List Char} (htok : tok ∈ TOKS)
    (segs : List (List Char)) (hsegs : ∀ seg ∈ segs, segOk tok seg) :
    occursIn tok segs.flatten = false := by
  apply occursIn_false_of_no_match (tok_ne_nil htok)
  intro x1 x2 h hne
  have hp := no_match_inside tok htok segs hsegs x1 x2 h hne []
  rwa [List.append_nil] at hp

/-! ## The single-pass substitution lemma -/

lemma onePass (tok : List Char) (htok : tok ∈ TOKS) (val : List Char)
    (segsX : List (List Char)) (hsX : ∀ seg ∈ segsX, segOk tok seg)
    (segsY : List (List Char)) (hsY : ∀ seg ∈ segsY, segOk tok seg) :
    goReplace (segsX.flatten ++ tok ++ segsY.flatten) tok val =
      segsX.flatten ++ val ++ segsY.flatten := by
  have htokne := tok_ne_nil htok
  have hY : occursIn tok segsY.flatten = false := occursIn_flatten_false htok segsY hsY
  suffices hmain : ∀ x2 x1, segsX.flatten = x1 ++ x2 →
      goReplace (x2 ++ (tok ++ segsY.flatten)) tok val =
        x2 ++ (val ++ segsY.flatten) by
    have hx := hmain segsX.flatten [] rfl
    simpa [List.append_assoc] using hx
  intro x2
  induction x2 with
  | nil =>
    intro x1 h
    simp only [List.nil_append]
    rcases tok with _ | ⟨t0, tokr⟩
    · exact absurd rfl htokne
    · show goReplace (t0 :: (tokr ++ segsY.flatten)) (t0 :: tokr) val =
        val ++ segsY.flatten
      rw [goReplace_cons_pos val
        (by rw [Bool.and_eq_true]
            exact ⟨by simp, isPre_append (t0 :: tokr) segsY.flatten⟩)]
      have hdrop : (t0 :: (tokr ++ segsY.flatten)).drop (t0 :: tokr).length =
          segsY.flatten := List.drop_left (t0 :: tokr) segsY.flatten
      rw [hdrop, goReplace_no_occur val hY]
  | cons c x2' ih =>
    intro x1 h
    have hfalse := no_match_inside tok htok segsX hsX x1 (c :: x2') h (by simp)
      (tok ++ segsY.flatten)
    simp only [List.cons_append] at hfalse
    rw [List.cons_append]
    rw [goReplace_cons_neg val (by rw [hfalse, Bool.and_false])]
    rw [ih (x1 ++ [c]) (by rw [h]; simp)]
    rfl

/-! ## The substituted decimal values contain no brace -/

lemma natDigitsCore_clean (fuel : ℕ) : ∀ (n : ℕ) (acc : List Char),
    (∀ c ∈ acc, c ≠ lbrace) → ∀ c ∈ natDigitsCore fuel n acc, c ≠ lbrace := by
  induction fuel with
  | zero => exact fun n acc hacc c hc => hacc c hc
  | succ fuel ih =>
    intro n acc hacc c hc
    simp only [natDigitsCore] at hc
    by_cases h : n < 10
    · rw [if_pos h] at hc
      rcases List.mem_cons.1 hc with rfl | hc'
      · interval_cases n <;> decide
      · exact hacc c hc'
    · rw [if_neg h] at hc
      refine ih (n / 10) _ ?_ c hc
      intro c' hc'
      rcases List.mem_cons.1 hc' with rfl | hcc
      · have hm : n % 10 < 10 := Nat.mod_lt _ (by norm_num)
        set m := n % 10 with hmdef
        interval_cases m <;> decide
      · exact hacc c' hcc

lemma itoa_clean (n : ℤ) : cleanSeg (itoa n) := by
  unfold cleanSeg itoa natDigits
  intro c hc
  split_ifs at hc with h
  · rcases List.mem_cons.1 hc with rfl | hc'
    · decide
    · exact natDigitsCore_clean _ _ _ (by simp) c hc'
  · exact natDigitsCore_clean _ _ _ (by simp) c hc

/-! ## The six placeholder orders -/

lemma subst_order_xyz (z x y : ℤ) (a b c d : List Char)
    (ha : cleanSeg a) (hb : cleanSeg b) (hc : cleanSeg c) (hd : cleanSeg d) :
    getTileUrl z x y (a ++ (xTok ++ (b ++ (yTok ++ (c ++ (zTok ++ d)))))) =
      a ++ (itoa x ++ (b ++ (itoa y ++ (c ++ (itoa z ++ d))))) := by
  unfold getTileUrl
  rw [show a ++ (xTok ++ (b ++ (yTok ++ (c ++ (zTok ++ d))))) =
      List.flatten [a] ++ xTok ++ List.flatten [b, yTok, c, zTok, d] by
    simp [List.flatten_cons, List.flatten_nil]]
  rw [onePass xTok (by decide) (itoa x) [a]
      (by intro seg hs
          simp at hs
          subst hs
          exact Or.inl ha)
      [b, yTok, c, zTok, d]
      (by intro seg hs
          simp at hs
          rcases hs with rfl | rfl | rfl | rfl | rfl
          · exact Or.inl hb
          · exact Or.inr ⟨by decide, by decide⟩
          · exact Or.inl hc
          · exact Or.inr ⟨by decide, by decide⟩
          · exact Or.inl hd)]
  rw [show List.flatten [a] ++ itoa x ++ List.flatten [b, yTok, c, zTok, d] =
      List.flatten [a, itoa x, b] ++ yTok ++ List.flatten [c, zTok, d] by
    simp [List.flatten_cons, List.flatten_nil]]
  rw [onePass yTok (by decide) (itoa y) [a, itoa x, b]
      (by intro seg hs
          simp at hs
          rcases hs with rfl | rfl | rfl
          · exact Or.inl ha
          · exact Or.inl (itoa_clean x)
          · exact Or.inl hb)
      [c, zTok, d]
      (by intro seg hs
          simp at hs
          rcases hs with rfl | rfl | rfl
          · exact Or.inl hc
          · exact Or.inr ⟨by decide, by decide⟩
          · exact Or.inl hd)]
  rw [show List.flatten [a, itoa x, b] ++ itoa y ++ List.flatten [c, zTok, d] =
      List.flatten [a, itoa x, b, itoa y, c] ++ zTok ++ List.flatten [d] by
    simp [List.flatten_cons, List.flatten_nil]]
  rw [onePass zTok (by decide) (itoa z) [a, itoa x, b, itoa y, c]
      (by intro seg hs
          simp at hs
          rcases hs with rfl | rfl | rfl | rfl | rfl
          · exact Or.inl ha
          · exact Or.inl (itoa_clean x)
          · exact Or.inl hb
          · exact Or.inl (itoa_clean y)
          · exact Or.inl hc)
      [d]
      (by intro seg hs
          simp at hs
          subst hs
          exact Or.inl hd)]
  simp [List.flatten_cons, List.flatten_nil]

lemma subst_order_xzy (z x y : ℤ) (a b c d : List Char)
    (ha : cleanSeg a) (hb : cleanSeg b) (hc : cleanSeg c) (hd : cleanSeg d) :
    getTileUrl z x y (a ++ (xTok ++ (b ++ (zTok ++ (c ++ (yTok ++ (d))))))) =
      a ++ (itoa x ++ (b ++ (itoa z ++ (c ++ (itoa y ++ (d)))))) := by
  unfold getTileUrl
  rw [show a ++ (xTok ++ (b ++ (zTok ++ (c ++ (yTok ++ (d)))))) =
      List.flatten [a] ++ xTok ++ List.flatten [b, zTok, c, yTok, d] by
    simp [List.flatten_cons, List.flatten_nil]]
  rw [onePass xTok (by decide) (itoa x) [a]
      (by intro seg hs
          simp at hs
          subst hs
          exact Or.inl ha)
      [b, zTok, c, yTok, d]
      (by intro seg hs
          simp at hs
          rcases hs with rfl | rfl | rfl | rfl | rfl
          · exact Or.inl hb
          · exact Or.inr ⟨by decide, by decide⟩
          · exact Or.inl hc
          · exact Or.inr ⟨by decide, by decide⟩
          · exact Or.inl hd)]
  rw [show List.flatten [a] ++ itoa x ++ List.flatten [b, zTok, c, yTok, d] =
      List.flatten [a, itoa x, b, zTok, c] ++ yTok ++ List.flatten [d] by
    simp [List.flatten_cons, List.flatten_nil]]
  rw [onePass yTok (by decide) (itoa y) [a, itoa x, b, zTok, c]
      (by intro seg hs
          simp at hs
          rcases hs with rfl | rfl | rfl | rfl | rfl
          · exact Or.inl ha
          · exact Or.inl (itoa_clean x)
          · exact Or.inl hb
          · exact Or.inr ⟨by decide, by decide⟩
          · exact Or.inl hc)
      [d]
      (by intro seg hs
          simp at hs
          subst hs
          exact Or.inl hd)]
  rw [show List.flatten [a, itoa x, b, zTok, c] ++ itoa y ++ List.flatten [d] =
      List.flatten [a, itoa x, b] ++ zTok ++ List.flatten [c, itoa y, d] by
    simp [List.flatten_cons, List.flatten_nil]]
  rw [onePass zTok (by decide) (itoa z) [a, itoa x, b]
      (by intro seg hs
          simp at hs
          rcases hs with rfl | rfl | rfl
          · exact Or.inl ha
          · exact Or.inl (itoa_clean x)
          · exact Or.inl hb)
      [c, itoa y, d]
      (by intro seg hs
          simp at hs
          rcases hs with rfl | rfl | rfl
          · exact Or.inl hc
          · exact Or.inl (itoa_clean y)
          · exact Or.inl hd)]
  simp [List.flatten_cons, List.flatten_nil]

lemma subst_order_yxz (z x y : ℤ) (a b c d : List Char)
    (ha : cleanSeg a) (hb : cleanSeg b) (hc : cleanSeg c) (hd : cleanSeg d) :
    getTileUrl z x y (a ++ (yTok ++ (b ++ (xTok ++ (c ++ (zTok ++ (d))))))) =
      a ++ (itoa y ++ (b ++ (itoa x ++ (c ++ (itoa z ++ (d)))))) := by
  unfold getTileUrl
  rw [show a ++ (yTok ++ (b ++ (xTok ++ (c ++ (zTok ++ (d)))))) =
      List.flatten [a, yTok, b] ++ xTok ++ List.flatten [c, zTok, d] by
    simp [List.flatten_cons, List.flatten_nil]]
  rw [onePass xTok (by decide) (itoa x) [a, yTok, b]
      (by intro seg hs
          simp at hs
          rcases hs with rfl | rfl | rfl
          · exact Or.inl ha
          · exact Or.inr ⟨by decide, by decide⟩
          · exact Or.inl hb)
      [c, zTok, d]
      (by intro seg hs
          simp at hs
          rcases hs with rfl | rfl | rfl
          · exact Or.inl hc
          · exact Or.inr ⟨by decide, by decide⟩
          · exact Or.inl hd)]
  rw [show List.flatten [a, yTok, b] ++ itoa x ++ List.flatten [c, zTok, d] =
      List.flatten [a] ++ yTok ++ List.flatten [b, itoa x, c, zTok, d] by
    simp [List.flatten_cons, List.flatten_nil]]
  rw [onePass yTok (by decide) (itoa y) [a]
      (by intro seg hs
          simp at hs
          subst hs
          exact Or.inl ha)
      [b, itoa x, c, zTok, d]
      (by intro seg hs
          simp at hs
          rcases hs with rfl | rfl | rfl | rfl | rfl
          · exact Or.inl hb
          · exact Or.inl (itoa_clean x)
          · exact Or.inl hc
          · exact Or.inr ⟨by decide, by decide⟩
          · exact Or.inl hd)]
  rw [show List.flatten [a] ++ itoa y ++ List.flatten [b, itoa x, c, zTok, d] =
      List.flatten [a, itoa y, b, itoa x, c] ++ zTok ++ List.flatten [d] by
    simp [List.flatten_cons, List.flatten_nil]]
  rw [onePass zTok (by decide) (itoa z) [a, itoa y, b, itoa x, c]
      (by intro seg hs
          simp at hs
          rcases hs with rfl | rfl | rfl | rfl | rfl
          · exact Or.inl ha
          · exact Or.inl (itoa_clean y)
          · exact Or.inl hb
          · exact Or.inl (itoa_clean x)
          · exact Or.inl hc)
      [d]
      (by intro seg hs
          simp at hs
          subst hs
          exact Or.inl hd)]
  simp [List.flatten_cons, List.flatten_nil]

lemma subst_order_yzx (z x y : ℤ) (a b c d : List Char)
    (ha : cleanSeg a) (hb : cleanSeg b) (hc : cleanSeg c) (hd : cleanSeg d) :
    getTileUrl z x y (a ++ (yTok ++ (b ++ (zTok ++ (c ++ (xTok ++ (d))))))) =
      a ++ (itoa y ++ (b ++ (itoa z ++ (c ++ (itoa x ++ (d)))))) := by
  unfold getTileUrl
  rw [show a ++ (yTok ++ (b ++ (zTok ++ (c ++ (xTok ++ (d)))))) =
      List.flatten [a, yTok, b, zTok, c] ++ xTok ++ List.flatten [d] by
    simp [List.flatten_cons, List.flatten_nil]]
  rw [onePass xTok (by decide) (itoa x) [a, yTok, b, zTok, c]
      (by intro seg hs
          simp at hs
          rcases hs with rfl | rfl | rfl | rfl | rfl
          · exact Or.inl ha
          · exact Or.inr ⟨by decide, by decide⟩
          · exact Or.inl hb
          · exact Or.inr ⟨by decide, by decide⟩
          · exact Or.inl hc)
      [d]
      (by intro seg hs
          simp at hs
          subst hs
          exact Or.inl hd)]
  rw [show List.flatten [a, yTok, b, zTok, c] ++ itoa x ++ List.flatten [d] =
      List.flatten [a] ++ yTok ++ List.flatten [b, zTok, c, itoa x, d] by
    simp [List.flatten_cons, List.flatten_nil]]
  rw [onePass yTok (by decide) (itoa y) [a]
      (by intro seg hs
          simp at hs
          subst hs
          exact Or.inl ha)
      [b, zTok, c, itoa x, d]
      (by intro seg hs
          simp at hs
          rcases hs with rfl | rfl | rfl | rfl | rfl
          · exact Or.inl hb
          · exact Or.inr ⟨by decide, by decide⟩
          · exact Or.inl hc
          · exact Or.inl (itoa_clean x)
          · exact Or.inl hd)]
  rw [show List.flatten [a] ++ itoa y ++ List.flatten [b, zTok, c, itoa x, d] =
      List.flatten [a, itoa y, b] ++ zTok ++ List.flatten [c, itoa x, d] by
    simp [List.flatten_cons, List.flatten_nil]]
  rw [onePass zTok (by decide) (itoa z) [a, itoa y, b]
      (by intro seg hs
          simp at hs
          rcases hs with rfl | rfl | rfl
          · exact Or.inl ha
          · exact Or.inl (itoa_clean y)
          · exact Or.inl hb)
      [c, itoa x, d]
      (by intro seg hs
          simp at hs
          rcases hs with rfl | rfl | rfl
          · exact Or.inl hc
          · exact Or.inl (itoa_clean x)
          · exact Or.inl hd)]
  simp [List.flatten_cons, List.flatten_nil]

lemma subst_order_zxy (z x y : ℤ) (a b c d : List Char)
    (ha : cleanSeg a) (hb : cleanSeg b) (hc : cleanSeg c) (hd : cleanSeg d) :
    getTileUrl z x y (a ++ (zTok ++ (b ++ (xTok ++ (c ++ (yTok ++ (d))))))) =
      a ++ (itoa z ++ (b ++ (itoa x ++ (c ++ (itoa y ++ (d)))))) := by
  unfold getTileUrl
  rw [show a ++ (zTok ++ (b ++ (xTok ++ (c ++ (yTok ++ (d)))))) =
      List.flatten [a, zTok, b] ++ xTok ++ List.flatten [c, yTok, d] by
    simp [List.flatten_cons, List.flatten_nil]]
  rw [onePass xTok (by decide) (itoa x) [a, zTok, b]
      (by intro seg hs
          simp at hs
          rcases hs with rfl | rfl | rfl
          · exact Or.inl ha
          · exact Or.inr ⟨by decide, by decide⟩
          · exact Or.inl hb)
      [c, yTok, d]
      (by intro seg hs
          simp at hs
          rcases hs with rfl | rfl | rfl
          · exact Or.inl hc
          · exact Or.inr ⟨by decide, by decide⟩
          · exact Or.inl hd)]
  rw [show List.flatten [a, zTok, b] ++ itoa x ++ List.flatten [c, yTok, d] =
      List.flatten [a, zTok, b, itoa x, c] ++ yTok ++ List.flatten [d] by
    simp [List.flatten_cons, List.flatten_nil]]
  rw [onePass yTok (by decide) (itoa y) [a, zTok, b, itoa x, c]
      (by intro seg hs
          simp at hs
          rcases hs with rfl | rfl | rfl | rfl | rfl
          · exact Or.inl ha
          · exact Or.inr ⟨by decide, by decide⟩
          · exact Or.inl hb
          · exact Or.inl (itoa_clean x)
          · exact Or.inl hc)
      [d]
      (by intro seg hs
          simp at hs
          subst hs
          exact Or.inl hd)]
  rw [show List.flatten [a, zTok, b, itoa x, c] ++ itoa y ++ List.flatten [d] =
      List.flatten [a] ++ zTok ++ List.flatten [b, itoa x, c, itoa y, d] by
    simp [List.flatten_cons, List.flatten_nil]]
  rw [onePass zTok (by decide) (itoa z) [a]
      (by intro seg hs
          simp at hs
          subst hs
          exact Or.inl ha)
      [b, itoa x, c, itoa y, d]
      (by intro seg hs
          simp at hs
          rcases hs with rfl | rfl | rfl | rfl | rfl
          · exact Or.inl hb
          · exact Or.inl (itoa_clean x)
          · exact Or.inl hc
          · exact Or.inl (itoa_clean y)
          · exact Or.inl hd)]
  simp [List.flatten_cons, List.flatten_nil]

lemma subst_order_zyx (z x y : ℤ) (a b c d : List Char)
    (ha : cleanSeg a) (hb : cleanSeg b) (hc : cleanSeg c) (hd : cleanSeg d) :
    getTileUrl z x y (a ++ (zTok ++ (b ++ (yTok ++ (c ++ (xTok ++ (d))))))) =
      a ++ (itoa z ++ (b ++ (itoa y ++ (c ++ (itoa x ++ (d)))))) := by
  unfold getTileUrl
  rw [show a ++ (zTok ++ (b ++ (yTok ++ (c ++ (xTok ++ (d)))))) =
      List.flatten [a, zTok, b, yTok, c] ++ xTok ++ List.flatten [d] by
    simp [List.flatten_cons, List.flatten_nil]]
  rw [onePass xTok (by decide) (itoa x) [a, zTok, b, yTok, c]
      (by intro seg hs
          simp at hs
          rcases hs with rfl | rfl | rfl | rfl | rfl
          · exact Or.inl ha
          · exact Or.inr ⟨by decide, by decide⟩
          · exact Or.inl hb
          · exact Or.inr ⟨by decide, by decide⟩
          · exact Or.inl hc)
      [d]
      (by intro seg hs
          simp at hs
          subst hs
          exact Or.inl hd)]
  rw [show List.flatten [a, zTok, b, yTok, c] ++ itoa x ++ List.flatten [d] =
      List.flatten [a, zTok, b] ++ yTok ++ List.flatten [c, itoa x, d] by
    simp [List.flatten_cons, List.flatten_nil]]
  rw [onePass yTok (by decide) (itoa y) [a, zTok, b]
      (by intro seg hs
          simp at hs
          rcases hs with rfl | rfl | rfl
          · exact Or.inl ha
          · exact Or.inr ⟨by decide, by decide⟩
          · exact Or.inl hb)
      [c, itoa x, d]
      (by intro seg hs
          simp at hs
          rcases hs with rfl | rfl | rfl
          · exact Or.inl hc
          · exact Or.inl (itoa_clean x)
          · exact Or.inl hd)]
  rw [show List.flatten [a, zTok, b] ++ itoa y ++ List.flatten [c, itoa x, d] =
      List.flatten [a] ++ zTok ++ List.flatten [b, itoa y, c, itoa x, d] by
    simp [List.flatten_cons, List.flatten_nil]]
  rw [onePass zTok (by decide) (itoa z) [a]
      (by intro seg hs
          simp at hs
          subst hs
          exact Or.inl ha)
      [b, itoa y, c, itoa x, d]
      (by intro seg hs
          simp at hs
          rcases hs with rfl | rfl | rfl | rfl | rfl
          · exact Or.inl hb
          · exact Or.inl (itoa_clean y)
          · exact Or.inl hc
          · exact Or.inl (itoa_clean x)
          · exact Or.inl hd)]
  simp [List.flatten_cons, List.flatten_nil]

/-! ## Claim theorems: URL templating (C5) -/

/-- Claim C5 (corrected), counterexample: `getTileUrl` replaces every
occurrence of a placeholder, not exactly once — the template consisting
of the column placeholder token written twice in a row resolves with both
occurrences substituted, whereas replacing the token "exactly once" would
leave one occurrence intact. -/
theorem C5_counterexample :
    getTileUrl 0 2 0 [lbrace, 'x', rbrace, lbrace, 'x', rbrace] = ['2', '2'] ∧
    ['2', '2'] ≠ ['2', lbrace, 'x', rbrace] ∧
    ['2', '2'] ≠ [lbrace, 'x', rbrace, '2'] := by
  refine ⟨by decide, by decide, by decide⟩

/-- Claim C5 (corrected), amended: `getTileUrl` substitutes every
occurrence of each placeholder token.  In particular, for a template in
which each of the three placeholders occurs exactly once — in any order,
separated by brace-free strings — each is replaced exactly once by the
corresponding decimal integer; a substitution pass for a token that does
not occur in the string leaves it unchanged; and the spec's example
resolves as stated. -/
theorem C5_amended :
    (∀ (z x y : ℤ) (t1 t2 t3 : ℕ) (a b c d : List Char),
        t1 < 3 → t2 < 3 → t3 < 3 → t1 ≠ t2 → t1 ≠ t3 → t2 ≠ t3 →
        cleanSeg a → cleanSeg b → cleanSeg c → cleanSeg d →
        getTileUrl z x y
            (a ++ (slotTok t1 ++ (b ++ (slotTok t2 ++ (c ++ (slotTok t3 ++ d)))))) =
          a ++ (slotVal z x y t1 ++ (b ++ (slotVal z x y t2 ++
            (c ++ (slotVal z x y t3 ++ d)))))) ∧
    (∀ (tok val s : List Char), tok ∈ TOKS → occursIn tok s = false →
        goReplace s tok val = s) ∧
    getTileUrl 4 2 1 exTemplate = exResolved := by
  refine ⟨?_, fun tok val s _ h => goReplace_no_occur val h, by decide⟩
  intro z x y t1 t2 t3 a b c d h1 h2 h3 h12 h13 h23 ha hb hc hd
  interval_cases t1 <;> interval_cases t2 <;> interval_cases t3 <;>
    first
    | exact absurd rfl h12
    | exact absurd rfl h13
    | exact absurd rfl h23
    | exact subst_order_xyz z x y a b c d ha hb hc hd
    | exact subst_order_xzy z x y a b c d ha hb hc hd
    | exact subst_order_yxz z x y a b c d ha hb hc hd
    | exact subst_order_yzx z x y a b c d ha hb hc hd
    | exact subst_order_zxy z x y a b c d ha hb hc hd
    | exact subst_order_zyx z x y a b c d ha hb hc hd

/-- Claim C5, witness: the amended theorem applied to the concrete
single-occurrence template of the spec's example. -/
theorem C5_witness :
    ((0:ℕ) < 3 ∧ (1:ℕ) < 3 ∧ (2:ℕ) < 3 ∧ (0:ℕ) ≠ 1 ∧ (0:ℕ) ≠ 2 ∧ (1:ℕ) ≠ 2 ∧
      cleanSeg [] ∧ cleanSeg ['/'] ∧ cleanSeg ['.', 'p', 'n', 'g']) ∧
    getTileUrl 4 2 1
        ([] ++ (slotTok 0 ++ (['/'] ++ (slotTok 1 ++
          (['/'] ++ (slotTok 2 ++ ['.', 'p', 'n', 'g'])))))) =
      [] ++ (slotVal 4 2 1 0 ++ (['/'] ++ (slotVal 4 2 1 1 ++
        (['/'] ++ (slotVal 4 2 1 2 ++ ['.', 'p', 'n', 'g']))))) :=
  ⟨⟨by decide, by decide, by decide, by decide, by decide, by decide,
    by decide, by decide, by decide⟩,
   C5_amended.1 4 2 1 0 1 2 [] ['/'] ['/'] ['.', 'p', 'n', 'g']
     (by decide) (by decide) (by decide) (by decide) (by decide) (by decide)
     (by decide) (by decide) (by decide) (by decide)⟩

/-! ## Claim theorems: prepareDatabase clobbers the output path (C10) -/

/-- Claim C10 (confirmed): `prepareDatabase` unconditionally removes the
file at the output path before opening the store (the removal is the first
action of its effect list), the resulting file system holds a fresh empty
database at that path, and the outcome is independent of whatever archive
was previously stored there. -/
theorem C10_prepare_deletes (fs : FileSys) (filename : String)
    (prior : Option (List ℕ)) :
    (prepareDatabaseActs filename).head? = some (DbAct.removeFile filename) ∧
    runPrepare fs filename filename = some emptyDb ∧
    runPrepare (fsUpdate fs filename prior) filename = runPrepare fs filename := by
  refine ⟨rfl, by simp [runPrepare], ?_⟩
  funext g
  by_cases hg : g = filename <;> simp [runPrepare, fsUpdate, hg]

end Mbtilego
